import Mathlib

/-!
Shallow embedding of the two Saleae trace readers of viewtrace.dev
(`saleae_binary_trace_reader.cc` and `saleae_csv_trace_reader.cc`) and
proofs about them.

Modelling conventions:
* bytes are `Nat` values below 256; a buffer is a `List Nat`;
* `double`/`float` values are decoded from their IEEE-754 bit patterns into
  exact rationals (`ℚ`); every finite double is an exact rational, the
  non-finite encodings (exponent field all ones) are mapped to `0`;
* `size_t` arithmetic of the C++ (a 64-bit platform) is taken modulo `2 ^ 64`
  exactly where the C++ expression is computed in `size_t`;
* an out-of-bounds `memcpy` of the C++ (undefined behaviour) is modelled by
  the distinguished result `BinResult.oob`;
* the external collaborators (track tracker, event tracker, slice tracker,
  string interner) are modelled by recording the calls the reader makes:
  counter samples and slices are accumulated in lists, interned strings are
  the strings themselves.
-/

namespace Viewtrace

/-!
Rational arithmetic helpers.  Batteries marks `Rat.add`, `Rat.mul`, `Rat.inv`
and friends `@[irreducible]`, so terms built from them do not evaluate inside
proofs.  The embedding therefore uses the following `mkRat`-based operations,
each provably equal to the standard one (see the `…_eq_…` lemmas right after
the definitions); concrete runs of the readers then reduce with `decide`.
-/

/-- Multiplication on `ℚ` (equal to `*`, see `qmul_eq_mul`). -/
def qmul (a b : ℚ) : ℚ := mkRat (a.num * b.num) (a.den * b.den)

/-- Addition on `ℚ` (equal to `+`, see `qadd_eq_add`). -/
def qadd (a b : ℚ) : ℚ := mkRat (a.num * b.den + b.num * a.den) (a.den * b.den)

/-- Subtraction on `ℚ` (equal to `-`, see `qsub_eq_sub`). -/
def qsub (a b : ℚ) : ℚ := qadd a (-b)

/-- Inverse on `ℚ` (equal to `⁻¹`, see `qinv_eq_inv`). -/
def qinv (b : ℚ) : ℚ :=
  if 0 ≤ b.num then mkRat (b.den : ℤ) b.num.toNat
  else mkRat (-(b.den : ℤ)) (-b.num).toNat

/-- Division on `ℚ` (equal to `/`, see `qdiv_eq_div`). -/
def qdiv (a b : ℚ) : ℚ := qmul a (qinv b)

/-- `m * 2 ^ e` as a rational (see `dyadic_eq`). -/
def dyadic (m : ℕ) (e : ℤ) : ℚ :=
  if 0 ≤ e then mkRat (m * 2 ^ e.toNat) 1 else mkRat m (2 ^ (-e).toNat)

/-- `m * 10 ^ e` as a rational (see `decimal_eq`). -/
def decimal (m : ℚ) (e : ℤ) : ℚ :=
  if 0 ≤ e then qmul m (mkRat (10 ^ e.toNat) 1) else qmul m (mkRat 1 (10 ^ (-e).toNat))

theorem qmul_eq_mul (a b : ℚ) : qmul a b = a * b := by
  rw [qmul, Rat.mkRat_eq_div]
  push_cast
  conv_rhs => rw [← Rat.num_div_den a, ← Rat.num_div_den b, div_mul_div_comm]

theorem qadd_eq_add (a b : ℚ) : qadd a b = a + b := by
  rw [qadd, Rat.mkRat_eq_div]
  push_cast
  conv_rhs => rw [← Rat.num_div_den a, ← Rat.num_div_den b]
  rw [div_add_div _ _ (by exact_mod_cast a.den_nz) (by exact_mod_cast b.den_nz)]
  ring_nf

theorem qsub_eq_sub (a b : ℚ) : qsub a b = a - b := by
  rw [qsub, qadd_eq_add, sub_eq_add_neg]

theorem qinv_eq_inv (b : ℚ) : qinv b = b⁻¹ := by
  rw [Rat.inv_def', qinv]
  split
  · rw [Rat.mkRat_eq_divInt, Int.toNat_of_nonneg (by assumption)]
  · rw [Rat.mkRat_eq_divInt, Int.toNat_of_nonneg (by omega), Rat.neg_divInt_neg]

theorem qdiv_eq_div (a b : ℚ) : qdiv a b = a / b := by
  rw [qdiv, qmul_eq_mul, qinv_eq_inv, div_eq_mul_inv]

theorem dyadic_eq (m : ℕ) (e : ℤ) : dyadic m e = (m : ℚ) * (2 : ℚ) ^ e := by
  rw [dyadic]
  split
  · rw [Rat.mkRat_one]
    push_cast
    rw [← zpow_natCast (2 : ℚ), Int.toNat_of_nonneg (by assumption)]
  · rw [Rat.mkRat_eq_div]
    push_cast
    rw [← zpow_natCast (2 : ℚ), Int.toNat_of_nonneg (by omega), div_eq_mul_inv,
      ← zpow_neg, neg_neg]

theorem decimal_eq (m : ℚ) (e : ℤ) : decimal m e = m * (10 : ℚ) ^ e := by
  rw [decimal]
  split
  · rw [qmul_eq_mul, Rat.mkRat_one]
    push_cast
    rw [← zpow_natCast (10 : ℚ), Int.toNat_of_nonneg (by assumption)]
  · rw [qmul_eq_mul, Rat.mkRat_eq_div]
    push_cast
    rw [← zpow_natCast (10 : ℚ), Int.toNat_of_nonneg (by omega), div_eq_mul_inv,
      ← zpow_neg, neg_neg, one_mul]

/-- `size_t` (64-bit) wrap-around, used where the C++ computes in `size_t`. -/
def w64 (n : Nat) : Nat := n % 2 ^ 64

/-- Little-endian value of a byte list (`memcpy` into an unsigned integer). -/
def leNat (bs : List Nat) : Nat := bs.foldr (fun b acc => b + 256 * acc) 0

/-- The `n` bytes of `buf` starting at `pos`. -/
def sliceBytes (buf : List Nat) (pos n : Nat) : List Nat := (buf.drop pos).take n

/-- Reinterpret an unsigned 32-bit value as the two's-complement `int32_t`. -/
def toInt32 (u : Nat) : Int := if u < 2 ^ 31 then (u : Int) else (u : Int) - 2 ^ 32

/-- Reinterpret an unsigned 64-bit value as the two's-complement `int64_t`. -/
def toInt64 (u : Nat) : Int := if u < 2 ^ 63 then (u : Int) else (u : Int) - 2 ^ 64

/-- IEEE-754 binary64 decode of 8 little-endian bytes, as an exact rational.
Non-finite encodings (exponent `2047`) are mapped to `0`. -/
def decodeF64 (bs : List Nat) : ℚ :=
  let u : ℕ := leNat bs
  let sgn : ℕ := u / 2 ^ 63
  let e : ℕ := u / 2 ^ 52 % 2 ^ 11
  let m : ℕ := u % 2 ^ 52
  if e = 2047 then 0
  else
    let mag : ℚ :=
      if e = 0 then dyadic m (-1074) else dyadic (2 ^ 52 + m) ((e : ℤ) - 1075)
    if sgn = 1 then -mag else mag

/-- IEEE-754 binary32 decode of 4 little-endian bytes, as an exact rational.
Non-finite encodings (exponent `255`) are mapped to `0`. -/
def decodeF32 (bs : List Nat) : ℚ :=
  let u : ℕ := leNat bs
  let sgn : ℕ := u / 2 ^ 31
  let e : ℕ := u / 2 ^ 23 % 2 ^ 8
  let m : ℕ := u % 2 ^ 23
  if e = 255 then 0
  else
    let mag : ℚ :=
      if e = 0 then dyadic m (-149) else dyadic (2 ^ 23 + m) ((e : ℤ) - 150)
    if sgn = 1 then -mag else mag

/-- `std::llround` on an exact rational argument: the nearest integer, halfway
cases away from zero (the C standard's definition of `llround`). -/
def llroundQ (q : ℚ) : ℤ := if 0 ≤ q then ⌊qadd q (mkRat 1 2)⌋ else ⌈qsub q (mkRat 1 2)⌉

theorem llroundQ_def (q : ℚ) : llroundQ q = if 0 ≤ q then ⌊q + 1 / 2⌋ else ⌈q - 1 / 2⌉ := by
  unfold llroundQ
  rw [qadd_eq_add, qsub_eq_sub, show (mkRat 1 2 : ℚ) = 1 / 2 by
    rw [Rat.mkRat_eq_div]; norm_num]

/-- `SaleaeBinaryTraceReader::SecondsToNs`: `llround(seconds * 1e9)`. -/
def SecondsToNs (seconds : ℚ) : ℤ := llroundQ (qmul seconds 1000000000)

theorem secondsToNs_def (seconds : ℚ) : SecondsToNs seconds = llroundQ (seconds * 1000000000) := by
  rw [SecondsToNs, qmul_eq_mul]

/-- `SaleaeCsvTraceReader::SecondsToNs` (textually the same conversion). -/
def csvSecondsToNs (seconds : ℚ) : ℤ := llroundQ (qmul seconds 1000000000)

theorem csvSecondsToNs_def (seconds : ℚ) :
    csvSecondsToNs seconds = llroundQ (seconds * 1000000000) := by
  rw [csvSecondsToNs, qmul_eq_mul]

/-- Modelled from the spec: "`round(seconds * 1e9)` using
round-half-away-from-zero". Stated independently of `llroundQ` so the two can
be compared. -/
def roundHalfAwayFromZero (q : ℚ) : ℤ := if q < 0 then -⌊-q + 1 / 2⌋ else ⌊q + 1 / 2⌋

/-! ### The binary reader -/

/-- The two counter-track blueprints of the binary reader
(`kSaleaeDigitalBlueprint` / `kSaleaeAnalogBlueprint`). -/
inductive TrackKind where
  | digital
  | analog
  deriving DecidableEq, Repr

/-- One `EventTracker::PushCounter` call. -/
structure Counter where
  ts : ℤ
  value : ℚ
  track : TrackKind
  deriving DecidableEq, Repr

/-- Result of the whole-buffer decode. `oob` models the undefined behaviour of
an unchecked `memcpy` past the end of the buffer. -/
inductive BinResult where
  | ok
  | err (msg : String)
  | oob
  deriving DecidableEq, Repr

/-- The mutable decode state threaded through the chunk decoders: the read
position, the cached `track_id_`, and the counters pushed so far. -/
structure PState where
  pos : Nat
  trackId : Option TrackKind
  events : List Counter
  deriving DecidableEq, Repr

/-- `ReadField<T>`: `sizeof(T) = n` bytes at `pos`, bounds-checked, advancing
the position. -/
def readFieldBytes (buf : List Nat) (pos n : Nat) : Option (List Nat × Nat) :=
  if pos + n > buf.length then none else some (sliceBytes buf pos n, pos + n)

/-- The five header fields of a v1 digital chunk:
`int32 initial_state, f64 sample_rate, f64 begin_time, f64 end_time,
i64 num_transitions`, and the position after them. -/
def readDigitalV1Header (buf : List Nat) (pos : Nat) :
    Option (Nat × ℚ × ℚ × ℚ × ℤ × Nat) :=
  (readFieldBytes buf pos 4).bind fun a =>
  (readFieldBytes buf a.2 8).bind fun b =>
  (readFieldBytes buf b.2 8).bind fun c =>
  (readFieldBytes buf c.2 8).bind fun d =>
  (readFieldBytes buf d.2 8).map fun e =>
  (leNat a.1, decodeF64 b.1, decodeF64 c.1, decodeF64 d.1, toInt64 (leNat e.1), e.2)

/-- The four header fields of a v0 digital chunk:
`uint32 initial_state, f64 begin_time, f64 end_time, uint64 num_transitions`,
and the position after them. -/
def readDigitalV0Header (buf : List Nat) (pos : Nat) :
    Option (Nat × ℚ × ℚ × Nat × Nat) :=
  (readFieldBytes buf pos 4).bind fun a =>
  (readFieldBytes buf a.2 8).bind fun b =>
  (readFieldBytes buf b.2 8).bind fun c =>
  (readFieldBytes buf c.2 8).map fun d =>
  (leNat a.1, decodeF64 b.1, decodeF64 c.1, leNat d.1, d.2)

/-- Prepend one pushed counter to a loop result. -/
def consEvent (ev : Counter) (a : BinResult × Nat × List Counter) :
    BinResult × Nat × List Counter :=
  (a.1, a.2.1, ev :: a.2.2)

/-- Run `f` from the position a previous loop step ended at, keeping the
events of both, unless that step already failed. -/
def chain (a : BinResult × Nat × List Counter)
    (f : Nat → BinResult × Nat × List Counter) : BinResult × Nat × List Counter :=
  if a.1 = .ok then ((f a.2.1).1, (f a.2.1).2.1, a.2.2 ++ (f a.2.1).2.2) else a

/-- Package a chunk decoder's loop result back into the reader state: the
result, the advanced position, the cached track and the pushed counters. -/
def finishChunk (st : PState) (pre : List Counter) (track : TrackKind)
    (a : BinResult × Nat × List Counter) : BinResult × PState :=
  (a.1, { pos := a.2.1, trackId := some track, events := st.events ++ pre ++ a.2.2 })

/-- The transition loop shared by both digital decoders: `n` iterations, each
reading one unchecked `f64` at `pos` (the bound was only checked up front, so
a read past the end is `oob`), toggling the state and pushing a counter. -/
def digitalLoop (buf : List Nat) (track : TrackKind) :
    Nat → Nat → ℤ → BinResult × Nat × List Counter
  | 0, pos, _ => (.ok, pos, [])
  | n + 1, pos, state =>
    if pos + 8 > buf.length then (.oob, pos, [])
    else
      consEvent
        ⟨SecondsToNs (decodeF64 (sliceBytes buf pos 8)), ((1 - state : ℤ) : ℚ), track⟩
        (digitalLoop buf track n (pos + 8) (1 - state))

/-- `SaleaeBinaryTraceReader::ParseDigitalChunk` (v1 layout). -/
def parseDigitalChunk (buf : List Nat) (st : PState) : BinResult × PState :=
  match readDigitalV1Header buf st.pos with
  | none => (.err "Saleae digital chunk truncated", st)
  | some (initialStateRaw, _sampleRate, beginTime, _endTime, numTransitions, pos) =>
    if numTransitions < 0 then (.err "Saleae digital transition count invalid", st)
    else if w64 (pos + w64 (numTransitions.toNat * 8)) > buf.length then
      (.err "Saleae digital transitions truncated", st)
    else
      finishChunk st
        [⟨SecondsToNs beginTime, ((if initialStateRaw ≠ 0 then 1 else 0 : ℤ) : ℚ),
          st.trackId.getD .digital⟩]
        (st.trackId.getD .digital)
        (digitalLoop buf (st.trackId.getD .digital) numTransitions.toNat pos
          (if initialStateRaw ≠ 0 then 1 else 0))

/-- `SaleaeBinaryTraceReader::ParseDigitalChunkV0` (legacy and magic-v0 layout). -/
def parseDigitalChunkV0 (buf : List Nat) (st : PState) : BinResult × PState :=
  match readDigitalV0Header buf st.pos with
  | none => (.err "Saleae digital v0 header truncated", st)
  | some (initialStateRaw, beginTime, _endTime, numTransitions, pos) =>
    if w64 (pos + w64 (numTransitions * 8)) > buf.length then
      (.err "Saleae digital v0 transitions truncated", st)
    else
      finishChunk st
        [⟨SecondsToNs beginTime, ((if initialStateRaw ≠ 0 then 1 else 0 : ℤ) : ℚ),
          st.trackId.getD .digital⟩]
        (st.trackId.getD .digital)
        (digitalLoop buf (st.trackId.getD .digital) numTransitions pos
          (if initialStateRaw ≠ 0 then 1 else 0))

/-- The five per-waveform header fields of the v1 analog decoder:
`f64 begin_time, f64 trigger_time, f64 sample_rate, i64 downsample,
uint64 num_samples`, and the position after them. -/
def readAnalogV1WaveformHeader (buf : List Nat) (pos : Nat) :
    Option (ℚ × ℚ × ℚ × ℤ × Nat × Nat) :=
  (readFieldBytes buf pos 8).bind fun a =>
  (readFieldBytes buf a.2 8).bind fun b =>
  (readFieldBytes buf b.2 8).bind fun c =>
  (readFieldBytes buf c.2 8).bind fun d =>
  (readFieldBytes buf d.2 8).map fun e =>
  (decodeF64 a.1, decodeF64 b.1, decodeF64 c.1, toInt64 (leNat d.1), leNat e.1, e.2)

/-- The sample loop shared by both analog decoders: `n` iterations, each
reading one unchecked `f32`, pushing a counter at the accumulated time and
then stepping the time. -/
def analogSampleLoop (buf : List Nat) (track : TrackKind) (step : ℚ) :
    Nat → Nat → ℚ → BinResult × Nat × List Counter
  | 0, pos, _ => (.ok, pos, [])
  | n + 1, pos, currentTime =>
    if pos + 4 > buf.length then (.oob, pos, [])
    else
      consEvent ⟨SecondsToNs currentTime, decodeF32 (sliceBytes buf pos 4), track⟩
        (analogSampleLoop buf track step n (pos + 4) (qadd currentTime step))

/-- The per-waveform loop of `ParseAnalogWaveformV1`. -/
def analogWaveformLoop (buf : List Nat) (track : TrackKind) :
    Nat → Nat → BinResult × Nat × List Counter
  | 0, pos => (.ok, pos, [])
  | n + 1, pos =>
    match readAnalogV1WaveformHeader buf pos with
    | none => (.err "Saleae analog v1 waveform truncated", pos, [])
    | some (beginTime, _triggerTime, sampleRate, downsample, numSamples, p) =>
      if sampleRate ≤ 0 then (.err "Saleae analog v1 sample rate invalid", pos, [])
      else if downsample ≤ 0 then (.err "Saleae analog v1 downsample invalid", pos, [])
      else if w64 (p + w64 (numSamples * 4)) > buf.length then
        (.err "Saleae analog v1 samples truncated", pos, [])
      else
        chain
          (analogSampleLoop buf track (qdiv (downsample : ℚ) sampleRate)
            numSamples p beginTime)
          (analogWaveformLoop buf track n)

/-- `SaleaeBinaryTraceReader::ParseAnalogWaveformV1`. -/
def parseAnalogWaveformV1 (buf : List Nat) (st : PState) : BinResult × PState :=
  match readFieldBytes buf st.pos 8 with
  | none => (.err "Saleae analog v1 header truncated", st)
  | some wc =>
    finishChunk st [] (st.trackId.getD .analog)
      (analogWaveformLoop buf (st.trackId.getD .analog) (leNat wc.1) wc.2)

/-- The four header fields of the v0 analog decoder:
`f64 begin_time, uint64 sample_rate, uint64 downsample, uint64 num_samples`,
and the position after them. -/
def readAnalogV0Header (buf : List Nat) (pos : Nat) :
    Option (ℚ × Nat × Nat × Nat × Nat) :=
  (readFieldBytes buf pos 8).bind fun a =>
  (readFieldBytes buf a.2 8).bind fun b =>
  (readFieldBytes buf b.2 8).bind fun c =>
  (readFieldBytes buf c.2 8).map fun d =>
  (decodeF64 a.1, leNat b.1, leNat c.1, leNat d.1, d.2)

/-- `SaleaeBinaryTraceReader::ParseAnalogWaveformV0`. -/
def parseAnalogWaveformV0 (buf : List Nat) (st : PState) : BinResult × PState :=
  match readAnalogV0Header buf st.pos with
  | none => (.err "Saleae analog v0 header truncated", st)
  | some (beginTime, sampleRate, downsample, numSamples, p) =>
    if sampleRate = 0 then (.err "Saleae analog v0 sample rate invalid", st)
    else if downsample = 0 then (.err "Saleae analog v0 downsample invalid", st)
    else if w64 (p + w64 (numSamples * 4)) > buf.length then
      (.err "Saleae analog v0 samples truncated", st)
    else
      finishChunk st [] (st.trackId.getD .analog)
        (analogSampleLoop buf (st.trackId.getD .analog)
          (qdiv (downsample : ℚ) (sampleRate : ℚ)) numSamples p beginTime)

/-- `SaleaeBinaryTraceReader::ParseVersion0`. -/
def parseVersion0 (buf : List Nat) (dataType : TrackKind) (st : PState) :
    BinResult × PState :=
  match dataType with
  | .digital => parseDigitalChunkV0 buf st
  | .analog => parseAnalogWaveformV0 buf st

/-- `SaleaeBinaryTraceReader::ParseVersion1`. -/
def parseVersion1 (buf : List Nat) (dataType : TrackKind) (st : PState) :
    BinResult × PState :=
  match dataType with
  | .digital => parseDigitalChunk buf st
  | .analog => parseAnalogWaveformV1 buf st

/-- Continue with `f` from an intermediate reader state unless it failed. -/
def chainChunk (a : BinResult × PState) (f : PState → BinResult × PState) :
    BinResult × PState :=
  if a.1 = .ok then f a.2 else a

/-- The `chunk_count` loop of the v1 path of `ParseBuffer`: a failure in any
chunk aborts the whole decode. -/
def chunkLoopV1 (buf : List Nat) (dataType : TrackKind) :
    Nat → PState → BinResult × PState
  | 0, st => (.ok, st)
  | n + 1, st =>
    chainChunk (parseVersion1 buf dataType st) (chunkLoopV1 buf dataType n)

/-- The 8 bytes of the ASCII magic `<SALEAE>`. -/
def magicBytes : List Nat := [60, 83, 65, 76, 69, 65, 69, 62]

/-- `MatchesMagic`: at least 8 bytes and the first 8 equal the magic. -/
def matchesMagic (buf : List Nat) : Bool :=
  decide (8 ≤ buf.length) && decide (sliceBytes buf 0 8 = magicBytes)

/-- `kSaleaeV0FileId = 0x00002f00`. -/
def kSaleaeV0FileId : Nat := 0x00002f00

/-- `SaleaeBinaryTraceReader::ParseBuffer`: dispatch by magic, version and
type, then decode the chunks.  Formatted error messages are modelled by their
format strings alone. -/
def parseBuffer (buf : List Nat) : BinResult × PState :=
  if matchesMagic buf then
    match readFieldBytes buf 8 4 with
    | none => (.err "Saleae v1 header truncated", ⟨0, none, []⟩)
    | some v =>
      match readFieldBytes buf v.2 4 with
      | none => (.err "Saleae v1 header truncated", ⟨0, none, []⟩)
      | some ty =>
        if toInt32 (leNat ty.1) ≠ 0 ∧ toInt32 (leNat ty.1) ≠ 1 then
          (.err "Unsupported Saleae data type", ⟨0, none, []⟩)
        else
          if toInt32 (leNat v.1) = 1 then
            match readFieldBytes buf ty.2 8 with
            | none => (.err "Saleae v1 header truncated", ⟨0, none, []⟩)
            | some cc =>
              if toInt64 (leNat cc.1) < 0 then
                (.err "Invalid Saleae chunk count", ⟨0, none, []⟩)
              else
                chunkLoopV1 buf (if toInt32 (leNat ty.1) = 1 then .analog else .digital)
                  (toInt64 (leNat cc.1)).toNat ⟨cc.2, none, []⟩
          else if toInt32 (leNat v.1) = 0 then
            parseVersion0 buf (if toInt32 (leNat ty.1) = 1 then .analog else .digital)
              ⟨ty.2, none, []⟩
          else (.err "Unsupported Saleae version", ⟨0, none, []⟩)
  else
    match readFieldBytes buf 0 4 with
    | none => (.err "Saleae v0 header truncated", ⟨0, none, []⟩)
    | some f =>
      match readFieldBytes buf f.2 4 with
      | none => (.err "Saleae v0 header truncated", ⟨0, none, []⟩)
      | some v =>
        match readFieldBytes buf v.2 4 with
        | none => (.err "Saleae v0 header truncated", ⟨0, none, []⟩)
        | some ty =>
          if leNat f.1 ≠ kSaleaeV0FileId ∨ toInt32 (leNat v.1) ≠ 0 then
            (.err "Unsupported Saleae header", ⟨0, none, []⟩)
          else if toInt32 (leNat ty.1) ≠ 0 ∧ toInt32 (leNat ty.1) ≠ 1 then
            (.err "Unsupported Saleae data type", ⟨0, none, []⟩)
          else
            parseVersion0 buf (if toInt32 (leNat ty.1) = 1 then .analog else .digital)
              ⟨ty.2, none, []⟩

/-- The binary reader's accumulated buffer (`buffer_`). -/
structure BinReaderState where
  buffer : List Nat
  deriving DecidableEq, Repr

/-- A fresh `SaleaeBinaryTraceReader`. -/
def binInit : BinReaderState := ⟨[]⟩

/-- `SaleaeBinaryTraceReader::Parse`: append the blob, never fails. -/
def binParse (st : BinReaderState) (blob : List Nat) : BinReaderState :=
  ⟨st.buffer ++ blob⟩

/-- `SaleaeBinaryTraceReader::NotifyEndOfFile`. -/
def binNotifyEndOfFile (st : BinReaderState) : BinResult × PState :=
  if st.buffer.isEmpty then (.err "Empty Saleae binary data", ⟨0, none, []⟩)
  else parseBuffer st.buffer

/-- Feed the chunks in order (each `Parse` call cannot fail), then finish. -/
def runBinReader (chunks : List (List Nat)) : BinResult × PState :=
  binNotifyEndOfFile (chunks.foldl binParse binInit)

/-! ### The CSV reader -/

/-- Modelled from the spec: `base::TrimWhitespace` (the perfetto string
library is not part of this repository) — trims the ASCII whitespace
characters (space, tab, carriage return, newline) from both ends. -/
def isWsChar (c : Char) : Bool := c = ' ' || c = '\t' || c = '\r' || c = '\n'

/-- Trim whitespace from both ends of a string. -/
def trimWS (s : String) : String :=
  String.mk (((s.toList.dropWhile isWsChar).reverse.dropWhile isWsChar).reverse)

/-- Modelled from the spec: `base::ToLower` — ASCII lower-casing. -/
def asciiLowerChar (c : Char) : Char :=
  if 65 ≤ c.toNat ∧ c.toNat ≤ 90 then Char.ofNat (c.toNat + 32) else c

/-- ASCII lower-casing of a string. -/
def asciiLower (s : String) : String := String.mk (s.toList.map asciiLowerChar)

/-- Leading decimal digits of a character list: their value, how many there
are, and the rest. -/
def takeDigits : List Char → Nat × Nat × List Char
  | [] => (0, 0, [])
  | c :: rest =>
    if 48 ≤ c.toNat ∧ c.toNat ≤ 57 then
      match takeDigits rest with
      | (v, k, r) => ((c.toNat - 48) * 10 ^ k + v, k + 1, r)
    else (0, 0, c :: rest)

/-- Modelled from the spec: `base::StringToDouble` — "numeric columns are
plain decimal (optionally signed/fractional) seconds", with an optional
decimal exponent as `strtod` accepts; the whole string must parse.  The value
is kept exact as a rational. -/
def stringToDouble (s : String) : Option ℚ :=
  let cs := s.toList
  let signAndRest : Bool × List Char :=
    match cs with
    | '-' :: r => (true, r)
    | '+' :: r => (false, r)
    | r => (false, r)
  let neg := signAndRest.1
  match takeDigits signAndRest.2 with
  | (ival, icount, cs2) =>
    let fracAndRest : ℚ × Nat × List Char :=
      match cs2 with
      | '.' :: r =>
        match takeDigits r with
        | (fval, fcount, r2) => (mkRat fval (10 ^ fcount), fcount, r2)
      | r => (0, 0, r)
    let mant0 : ℚ := qadd (ival : ℚ) fracAndRest.1
    let mantissa : ℚ := if neg then -mant0 else mant0
    if icount = 0 ∧ fracAndRest.2.1 = 0 then none
    else
      match fracAndRest.2.2 with
      | [] => some mantissa
      | e :: r3 =>
        if e = 'e' ∨ e = 'E' then
          let esignAndRest : ℤ × List Char :=
            match r3 with
            | '-' :: r4 => (-1, r4)
            | '+' :: r4 => (1, r4)
            | r4 => (1, r4)
          match takeDigits esignAndRest.2 with
          | (_, 0, _) => none
          | (ev, _, []) => some (decimal mantissa (esignAndRest.1 * ev))
          | (_, _, _ :: _) => none
        else none

/-- The per-analyzer I2C `TransactionState` of the CSV reader.  The source's
field `open` is called `opened` here (`open` is a Lean keyword). -/
structure TransactionState where
  opened : Bool := false
  start_ts_ns : ℤ := 0
  address : String := ""
  read : Bool := false
  write_bytes : List String := []
  read_bytes : List String := []
  deriving DecidableEq, Repr

/-- A slice argument value: `Variadic::Boolean` or `Variadic::String`. -/
inductive ArgValue where
  | b (v : Bool)
  | s (v : String)
  deriving DecidableEq, Repr

/-- One argument attached to a slice. -/
structure Arg where
  key : String
  value : ArgValue
  deriving DecidableEq, Repr

/-- One `SliceTracker::Scoped` call.  `track` is the handle the reader got
for the analyzer; `category` is `none` for `kNullStringId`. -/
structure Slice where
  ts : ℤ
  track : Nat
  category : Option String
  name : String
  dur : ℤ
  args : List Arg
  deriving DecidableEq, Repr

/-- The CSV reader's state apart from the streaming byte buffer: the parsed
column schema, the cached per-analyzer track handles, the emitted slices and
the per-analyzer transaction states.  The two `FlatHashMap`s are modelled as
total functions (an entry never inserted equals a default-inserted entry; the
maps are never iterated). -/
structure CsvCore where
  headerParsed : Bool := false
  columns : List String := []
  nameCol : Option Nat := none
  typeCol : Option Nat := none
  startTimeCol : Option Nat := none
  durationCol : Option Nat := none
  dataCol : Option Nat := none
  addressCol : Option Nat := none
  readCol : Option Nat := none
  trackIds : String → Option Nat := fun _ => none
  nextTrack : Nat := 0
  slices : List Slice := []
  tstates : String → TransactionState := fun _ => {}

/-- Pointwise update of a string-keyed total map. -/
def updMap {α : Type} (f : String → α) (k : String) (v : α) : String → α :=
  fun a => if a = k then v else f a

/-- The CSV tokenizer loop of `ParseCsvLine`: split on commas, a double-quote
toggles quoted mode, `""` inside a quoted run is one literal quote. -/
def parseCsvAux : List Char → Bool → List Char → List String → List String
  | [], _, field, acc => acc ++ [String.mk field]
  | '"' :: '"' :: rest2, true, field, acc => parseCsvAux rest2 true (field ++ ['"']) acc
  | '"' :: rest, true, field, acc => parseCsvAux rest false field acc
  | c :: rest, true, field, acc => parseCsvAux rest true (field ++ [c]) acc
  | '"' :: rest, false, field, acc => parseCsvAux rest true field acc
  | ',' :: rest, false, field, acc => parseCsvAux rest false [] (acc ++ [String.mk field])
  | c :: rest, false, field, acc => parseCsvAux rest false (field ++ [c]) acc

/-- `ParseCsvLine`. -/
def parseCsvLine (line : String) : List String := parseCsvAux line.toList false [] []

/-- `StripUtf8Bom`: drop a leading `EF BB BF`. -/
def stripUtf8Bom (s : String) : String :=
  match s.toList with
  | c0 :: c1 :: c2 :: rest =>
    if c0.toNat = 0xEF ∧ c1.toNat = 0xBB ∧ c2.toNat = 0xBF then String.mk rest else s
  | _ => s

/-- One header field: record the (trimmed, BOM-stripped on index 0) column
and map recognized lower-cased names to their role index (last match wins). -/
def headerStep (c : CsvCore) (p : Nat × String) : CsvCore :=
  let i := p.1
  let field0 := trimWS p.2
  let field := if i = 0 then stripUtf8Bom field0 else field0
  let lower := asciiLower field
  let c := { c with columns := c.columns ++ [field] }
  if lower = "name" then { c with nameCol := some i }
  else if lower = "type" then { c with typeCol := some i }
  else if lower = "start_time" ∨ lower = "start time" then { c with startTimeCol := some i }
  else if lower = "duration" then { c with durationCol := some i }
  else if lower = "data" then { c with dataCol := some i }
  else if lower = "address" then { c with addressCol := some i }
  else if lower = "read" then { c with readCol := some i }
  else c

/-- `SaleaeCsvTraceReader::ParseHeader`. -/
def parseHeader (core : CsvCore) (line : String) : Except String CsvCore :=
  let fields := parseCsvLine line
  if fields.isEmpty then .error "Saleae CSV header is empty"
  else
    let c := fields.enum.foldl headerStep { core with columns := [] }
    if c.nameCol.isNone ∨ c.typeCol.isNone ∨ c.startTimeCol.isNone ∨
        c.durationCol.isNone then
      .error "Saleae CSV header missing required columns (name, type, start_time, duration)"
    else .ok { c with headerParsed := true }

/-- A row field by index, `""` when out of range (rows were padded to the
header's width; `value_or(0)` only fires with the column present). -/
def getField (fields : List String) (i : Nat) : String := fields.getD i ""

/-- Pad a row that has fewer fields than the header with empty fields. -/
def padFields (fields : List String) (n : Nat) : List String :=
  if fields.length < n then fields ++ List.replicate (n - fields.length) "" else fields

/-- The row's fields after tokenizing and padding. -/
def rowFields (core : CsvCore) (line : String) : List String :=
  padFields (parseCsvLine line) core.columns.length

/-- The row's trimmed `name` field, defaulting to `"Unknown"` when empty. -/
def rowAnalyzer (core : CsvCore) (line : String) : String :=
  let a := trimWS (getField (rowFields core line) (core.nameCol.getD 0))
  if a = "" then "Unknown" else a

/-- The row's trimmed `type` field, defaulting to `"event"` when empty. -/
def rowType (core : CsvCore) (line : String) : String :=
  let t := trimWS (getField (rowFields core line) (core.typeCol.getD 0))
  if t = "" then "event" else t

/-- The row's trimmed `start_time` field. -/
def rowStartStr (core : CsvCore) (line : String) : String :=
  trimWS (getField (rowFields core line) (core.startTimeCol.getD 0))

/-- The row's trimmed `duration` field. -/
def rowDurStr (core : CsvCore) (line : String) : String :=
  trimWS (getField (rowFields core line) (core.durationCol.getD 0))

/-- The row's duration in seconds: `0` when the field is empty, otherwise its
parse (`none` when unparsable). -/
def rowDurOpt (core : CsvCore) (line : String) : Option ℚ :=
  if rowDurStr core line = "" then some 0 else stringToDouble (rowDurStr core line)

/-- Resolve or create the analyzer's cached track handle: the cached handle,
or a fresh one recorded under the analyzer key. -/
def rowTrackLookup (core : CsvCore) (analyzer : String) : Nat × CsvCore :=
  match core.trackIds analyzer with
  | some t => (t, core)
  | none =>
    (core.nextTrack,
      { core with trackIds := updMap core.trackIds analyzer (some core.nextTrack),
                  nextTrack := core.nextTrack + 1 })

/-- The emitted slice's display name: the trimmed `data` field when a data
column exists and the field is non-empty, then — whenever the name still
equals `type` — the trimmed `address` field when an address column exists
and the field is non-empty. -/
def rowEventName (core : CsvCore) (line : String) : String :=
  let fields := rowFields core line
  let ty := rowType core line
  let en1 :=
    if core.dataCol.isSome then
      let dv := trimWS (getField fields (core.dataCol.getD 0))
      if dv = "" then ty else dv
    else ty
  if en1 = ty ∧ core.addressCol.isSome then
    let av := trimWS (getField fields (core.addressCol.getD 0))
    if av = "" then en1 else av
  else en1

/-- The raw slice's category: `type_lower` when it is `"data"` or
`"address"`, else null. -/
def rowCategory (core : CsvCore) (line : String) : Option String :=
  let tyLower := asciiLower (rowType core line)
  if tyLower = "data" ∨ tyLower = "address" then some tyLower else none

/-- The raw slice's arguments: every column except the four structural ones,
with a non-empty header name and a non-empty trimmed value;
case-insensitively boolean-looking values become booleans. -/
def rowArgs (core : CsvCore) (line : String) : List Arg :=
  let fields := rowFields core line
  (List.range core.columns.length).filterMap fun i =>
    if some i = core.nameCol ∨ some i = core.typeCol ∨ some i = core.startTimeCol ∨
        some i = core.durationCol then none
    else if core.columns.getD i "" = "" then none
    else
      let value := trimWS (getField fields i)
      if value = "" then none
      else
        let lower := asciiLower value
        if lower = "true" ∨ lower = "false" then
          some ⟨core.columns.getD i "", .b (decide (lower = "true"))⟩
        else some ⟨core.columns.getD i "", .s value⟩

/-- `JoinBytes`: space-join. -/
def joinBytes (bytes : List String) : String :=
  match bytes with
  | [] => ""
  | b :: rest => rest.foldl (fun acc x => acc ++ " " ++ x) b

/-- `SaleaeCsvTraceReader::BuildTransactionName`. -/
def buildTransactionName (state : TransactionState) : String :=
  let name := if state.address = "" then "i2c" else state.address
  let name :=
    if state.write_bytes ≠ [] then
      state.write_bytes.foldl (fun acc b => acc ++ " " ++ b) (name ++ " W:")
    else name
  if state.read_bytes ≠ [] then
    state.read_bytes.foldl (fun acc b => acc ++ " " ++ b) (name ++ " R:")
  else name

/-- The up-to-three string arguments of a synthesized transaction slice:
`address`, space-joined `write_bytes`, space-joined `read_bytes`, each only
when non-empty. -/
def transactionArgs (state : TransactionState) : List Arg :=
  (if state.address ≠ "" then [⟨"address", .s state.address⟩] else []) ++
  (if state.write_bytes ≠ [] then [⟨"write_bytes", .s (joinBytes state.write_bytes)⟩]
   else []) ++
  (if state.read_bytes ≠ [] then [⟨"read_bytes", .s (joinBytes state.read_bytes)⟩]
   else [])

/-- The I2C transaction step for one row on an i2c analyzer: from the current
state and the row, the new state and the synthesized slices (one on `stop` of
an open transaction, none otherwise). -/
def i2cStep (core : CsvCore) (fields : List String) (tyLower : String)
    (ts dur : ℤ) (trackId : Nat) (st : TransactionState) :
    TransactionState × List Slice :=
  if tyLower = "start" then
    (if st.opened then st
     else { opened := true, start_ts_ns := ts, address := "", read := false,
            write_bytes := [], read_bytes := [] }, [])
  else if tyLower = "address" then
    let stA :=
      if st.opened ∧ core.addressCol.isSome then
        let av := trimWS (getField fields (core.addressCol.getD 0))
        if av = "" then st else { st with address := av }
      else st
    let stR :=
      if st.opened ∧ core.readCol.isSome then
        let rv := trimWS (getField fields (core.readCol.getD 0))
        if rv = "" then stA
        else
          let rl := asciiLower rv
          if rl = "true" ∨ rl = "false" then { stA with read := decide (rl = "true") }
          else stA
      else stA
    (stR, [])
  else if tyLower = "data" then
    (if st.opened ∧ core.dataCol.isSome then
       let dv := trimWS (getField fields (core.dataCol.getD 0))
       if dv = "" then st
       else if st.read then { st with read_bytes := st.read_bytes ++ [dv] }
       else { st with write_bytes := st.write_bytes ++ [dv] }
     else st, [])
  else if tyLower = "stop" then
    if st.opened then
      let endTs := ts + dur
      let tdur0 := endTs - st.start_ts_ns
      let tdur := if tdur0 < 0 then 0 else tdur0
      ({ st with opened := false },
       [⟨st.start_ts_ns, trackId, some "i2c", buildTransactionName st, tdur,
         transactionArgs st⟩])
    else (st, [])
  else (st, [])

/-- The raw slice a row emits: start/duration in nanoseconds, the analyzer's
(cached or fresh) track, the category, the display name and the arguments. -/
def rawSlice (core : CsvCore) (line : String) (sSec dSec : ℚ) : Slice :=
  ⟨csvSecondsToNs sSec, (rowTrackLookup core (rowAnalyzer core line)).1,
   rowCategory core line, rowEventName core line, csvSecondsToNs dSec,
   rowArgs core line⟩

/-- The reader state after a successfully validated row: the track cache
possibly extended, the raw slice appended, and — on an i2c analyzer — the
transaction step's synthesized slices appended and its new state written back
under the original-case analyzer key. -/
def rowResult (core : CsvCore) (line : String) (sSec dSec : ℚ) : CsvCore :=
  if asciiLower (rowAnalyzer core line) = "i2c" then
    { (rowTrackLookup core (rowAnalyzer core line)).2 with
      slices := (rowTrackLookup core (rowAnalyzer core line)).2.slices ++
        [rawSlice core line sSec dSec] ++
        (i2cStep core (rowFields core line) (asciiLower (rowType core line))
          (csvSecondsToNs sSec) (csvSecondsToNs dSec)
          (rowTrackLookup core (rowAnalyzer core line)).1
          (core.tstates (rowAnalyzer core line))).2,
      tstates := updMap core.tstates (rowAnalyzer core line)
        (i2cStep core (rowFields core line) (asciiLower (rowType core line))
          (csvSecondsToNs sSec) (csvSecondsToNs dSec)
          (rowTrackLookup core (rowAnalyzer core line)).1
          (core.tstates (rowAnalyzer core line))).1 }
  else
    { (rowTrackLookup core (rowAnalyzer core line)).2 with
      slices := (rowTrackLookup core (rowAnalyzer core line)).2.slices ++
        [rawSlice core line sSec dSec] }

/-- `SaleaeCsvTraceReader::ParseRow`: validate the row, then build
`rowResult`. -/
def parseRow (core : CsvCore) (line : String) : Except String CsvCore :=
  if (parseCsvLine line).isEmpty then .ok core
  else if rowStartStr core line = "" then .error "Saleae CSV row missing start_time"
  else
    match stringToDouble (rowStartStr core line) with
    | none => .error "Saleae CSV invalid start_time"
    | some startSeconds =>
      match rowDurOpt core line with
      | none => .error "Saleae CSV invalid duration"
      | some durationSeconds => .ok (rowResult core line startSeconds durationSeconds)

/-- `SaleaeCsvTraceReader::ParseLine`: strip one trailing `\r`, skip blank
lines, route to header or row parsing. -/
def parseLine (core : CsvCore) (line0 : List Char) : Except String CsvCore :=
  let line1 := if line0.getLast? = some '\r' then line0.dropLast else line0
  let line := String.mk line1
  if trimWS line = "" then .ok core
  else if core.headerParsed = false then parseHeader core line
  else parseRow core line

/-- The CSV reader's full state: parsed state plus the pending (not yet
newline-terminated) bytes of the streaming buffer. -/
structure CsvState where
  core : CsvCore
  pending : List Char

/-- Split a character list at its first newline: the part before it and the
part after it, or `none` when there is no newline. -/
def splitFirstNewline : List Char → Option (List Char × List Char)
  | [] => none
  | c :: rest =>
    if c = '\n' then some ([], rest)
    else
      match splitFirstNewline rest with
      | none => none
      | some (l, r) => some (c :: l, r)

theorem splitFirstNewline_length {p l r : List Char}
    (h : splitFirstNewline p = some (l, r)) : l.length + 1 + r.length = p.length := by
  induction p generalizing l r with
  | nil => simp [splitFirstNewline] at h
  | cons c rest ih =>
    simp only [splitFirstNewline] at h
    split at h
    · cases h
      simp
      omega
    · cases hs : splitFirstNewline rest with
      | none => rw [hs] at h; cases h
      | some lr =>
        rw [hs] at h
        cases lr with
        | mk l2 r2 =>
          cases h
          have := ih hs
          simp at this ⊢
          omega

/-- The line-extraction loop of `SaleaeCsvTraceReader::Parse`, on explicit
fuel (any fuel above the pending length gives the loop's behaviour; see
`processPendingFuel_congr`): while a newline-terminated line is available,
extract it and parse it. -/
def processPendingFuel : Nat → CsvCore → List Char → Except String CsvState
  | 0, core, pending => .ok ⟨core, pending⟩
  | fuel + 1, core, pending =>
    match splitFirstNewline pending with
    | none => .ok ⟨core, pending⟩
    | some (line, rest) =>
      match parseLine core line with
      | .error e => .error e
      | .ok core2 => processPendingFuel fuel core2 rest

theorem processPendingFuel_congr :
    ∀ {f1 : Nat}, ∀ {f2 core pending}, pending.length < f1 → pending.length < f2 →
      processPendingFuel f1 core pending = processPendingFuel f2 core pending := by
  intro f1
  induction f1 with
  | zero => intro f2 core pending h1 h2; omega
  | succ f1 ih =>
    intro f2 core pending h1 h2
    cases f2 with
    | zero => omega
    | succ f2 =>
      unfold processPendingFuel
      cases hs : splitFirstNewline pending with
      | none => rfl
      | some lr =>
        obtain ⟨line, rest⟩ := lr
        have hlen := splitFirstNewline_length hs
        simp only
        cases hp : parseLine core line with
        | error e => rfl
        | ok core2 => exact ih (by omega) (by omega)

/-- The line-extraction loop of `SaleaeCsvTraceReader::Parse`. -/
def processPending (core : CsvCore) (pending : List Char) : Except String CsvState :=
  processPendingFuel (pending.length + 1) core pending

/-- `SaleaeCsvTraceReader::Parse`: append the blob, then drain full lines. -/
def csvParse (st : CsvState) (blob : List Char) : Except String CsvState :=
  processPending st.core (st.pending ++ blob)

/-- `SaleaeCsvTraceReader::NotifyEndOfFile`: nothing pending is a no-op;
otherwise the whole remainder is flushed as one final line. -/
def csvNotifyEndOfFile (st : CsvState) : Except String CsvState :=
  if st.pending.isEmpty then .ok st
  else
    match parseLine st.core st.pending with
    | .error e => .error e
    | .ok c => .ok ⟨c, []⟩

/-- A fresh `SaleaeCsvTraceReader`. -/
def csvInit : CsvState := ⟨{}, []⟩

/-- Feed the chunks in order, aborting at the first failing `Parse` (a parse
error aborts the file's ingestion), then finish. -/
def runCsvReader (chunks : List (List Char)) : Except String CsvState :=
  (chunks.foldlM csvParse csvInit).bind csvNotifyEndOfFile

/-- The `w` little-endian bytes of `n` (test-vector encoding helper). -/
def leBytes (n w : Nat) : List Nat := (List.range w).map fun i => n / 256 ^ i % 256

/-! ### Theorems -/

theorem llroundQ_eq_roundHalfAwayFromZero (q : ℚ) :
    llroundQ q = roundHalfAwayFromZero q := by
  rw [llroundQ_def]
  unfold roundHalfAwayFromZero
  by_cases h : 0 ≤ q
  · rw [if_pos h, if_neg (not_lt.mpr h)]
  · rw [if_neg h, if_pos (not_le.mp h)]
    rw [show (-q + 1 / 2 : ℚ) = -(q - 1 / 2) by ring, Int.floor_neg, neg_neg]

/-- C4: the timestamp conversion of both readers is `round(seconds * 1e9)`
with ties rounded half away from zero; in particular `ns(1/2) = 500000000`
and `ns(1) = 1000000000`.  Seconds values are the exact rationals the finite
doubles denote. -/
theorem secondsToNs_is_round_half_away_from_zero :
    (∀ s : ℚ, SecondsToNs s = roundHalfAwayFromZero (s * 1000000000)) ∧
    (∀ s : ℚ, csvSecondsToNs s = roundHalfAwayFromZero (s * 1000000000)) ∧
    SecondsToNs (1 / 2) = 500000000 ∧ SecondsToNs 1 = 1000000000 ∧
    csvSecondsToNs (1 / 2) = 500000000 ∧ csvSecondsToNs 1 = 1000000000 := by
  have hhalf : (1 / 2 : ℚ) = mkRat 1 2 := by rw [Rat.mkRat_eq_div]; norm_num
  refine ⟨fun s => by rw [secondsToNs_def]; exact llroundQ_eq_roundHalfAwayFromZero _,
    fun s => by rw [csvSecondsToNs_def]; exact llroundQ_eq_roundHalfAwayFromZero _,
    ?_, ?_, ?_, ?_⟩ <;> (try rw [hhalf]) <;> decide

/-- C8: `finish` with an empty accumulated buffer (no prior `feed`) fails
with the `EmptyInput` error for the binary reader and is a successful no-op
for the CSV reader. -/
theorem finish_on_empty_input :
    (∀ st : BinReaderState, st.buffer = [] →
      binNotifyEndOfFile st = (.err "Empty Saleae binary data", ⟨0, none, []⟩)) ∧
    (∀ st : CsvState, st.pending = [] → csvNotifyEndOfFile st = .ok st) := by
  constructor
  · intro st h
    simp [binNotifyEndOfFile, h]
  · intro st h
    simp [csvNotifyEndOfFile, h]

/-- Witness for C8: the two fresh readers. -/
theorem finish_on_empty_input_witness :
    binNotifyEndOfFile binInit = (.err "Empty Saleae binary data", ⟨0, none, []⟩) ∧
    csvNotifyEndOfFile csvInit = .ok csvInit :=
  ⟨finish_on_empty_input.1 binInit rfl, finish_on_empty_input.2 csvInit rfl⟩

/-- A legacy-v0 digital buffer whose `uint64 num_transitions` is `2 ^ 61`
while zero transition bytes remain: `2 ^ 61 * sizeof(double)` wraps to `0` in
`size_t`, so the truncation guard passes. -/
def overflowDigitalV0Input : List Nat :=
  leBytes 0x00002f00 4 ++ leBytes 0 4 ++ leBytes 0 4 ++
  leBytes 0 4 ++ leBytes 0 8 ++ leBytes 0 8 ++ leBytes (2 ^ 61) 8

theorem binParse_foldl (chunks : List (List Nat)) :
    ∀ st : BinReaderState, chunks.foldl binParse st = ⟨st.buffer ++ chunks.flatten⟩ := by
  induction chunks with
  | nil =>
    intro st
    cases st
    simp
  | cons c cs ih =>
    intro st
    simp only [List.foldl_cons, List.flatten_cons, ih, binParse, List.append_assoc]

theorem splitFirstNewline_append {x : List Char} {line rest : List Char} (b : List Char)
    (h : splitFirstNewline x = some (line, rest)) :
    splitFirstNewline (x ++ b) = some (line, rest ++ b) := by
  induction x generalizing line with
  | nil => simp [splitFirstNewline] at h
  | cons c cr ih =>
    rw [List.cons_append]
    by_cases hc : c = '\n'
    · subst hc
      simp only [splitFirstNewline, if_pos rfl] at h ⊢
      cases h
      simp
    · simp only [splitFirstNewline, if_neg hc] at h ⊢
      cases hs : splitFirstNewline cr with
      | none => rw [hs] at h; cases h
      | some lr =>
        rw [hs] at h
        cases lr with
        | mk l2 r2 =>
          cases h
          rw [ih hs]

theorem processPending_none {core : CsvCore} {pending : List Char}
    (hs : splitFirstNewline pending = none) :
    processPending core pending = .ok ⟨core, pending⟩ := by
  unfold processPending processPendingFuel
  rw [hs]

theorem processPending_some {core : CsvCore} {pending line rest : List Char}
    (hs : splitFirstNewline pending = some (line, rest)) :
    processPending core pending =
      match parseLine core line with
      | .error e => .error e
      | .ok core2 => processPending core2 rest := by
  have hlen := splitFirstNewline_length hs
  conv_lhs => unfold processPending processPendingFuel
  rw [hs]
  simp only
  cases hp : parseLine core line with
  | error e => rfl
  | ok core2 =>
    exact processPendingFuel_congr (by omega) (by omega)

theorem processPending_append (b : List Char) :
    ∀ (x : List Char) (core : CsvCore),
      (processPending core x).bind (fun s => processPending s.core (s.pending ++ b)) =
        processPending core (x ++ b) := by
  suffices H : ∀ (n : Nat) (x : List Char), x.length ≤ n → ∀ core : CsvCore,
      (processPending core x).bind (fun s => processPending s.core (s.pending ++ b)) =
        processPending core (x ++ b) by
    intro x core
    exact H x.length x le_rfl core
  intro n
  induction n with
  | zero =>
    intro x hx core
    have hx0 : x = [] := List.length_eq_zero.mp (Nat.le_zero.mp hx)
    subst hx0
    rw [processPending_none (show splitFirstNewline [] = none from rfl)]
    rfl
  | succ n ih =>
    intro x hx core
    cases hs : splitFirstNewline x with
    | none =>
      rw [processPending_none hs]
      rfl
    | some lr =>
      cases lr with
      | mk line rest =>
        have hlen := splitFirstNewline_length hs
        rw [processPending_some hs, processPending_some (splitFirstNewline_append b hs)]
        cases hp : parseLine core line with
        | error e => rfl
        | ok core2 =>
          exact ih rest (by omega) core2

theorem csvParse_append (st : CsvState) (a b : List Char) :
    (csvParse st a).bind (fun s => csvParse s b) = csvParse st (a ++ b) := by
  unfold csvParse
  rw [← List.append_assoc]
  exact processPending_append b (st.pending ++ a) st.core

theorem foldlM_csvParse (cs : List (List Char)) :
    ∀ (s : CsvState) (a : List Char),
      (csvParse s a).bind (fun t => List.foldlM csvParse t cs) = csvParse s (a ++ cs.flatten) := by
  induction cs with
  | nil =>
    intro s a
    rw [List.flatten_nil, List.append_nil]
    cases csvParse s a <;> rfl
  | cons c cs ih =>
    intro s a
    have hassoc : ∀ (e : Except String CsvState) (f g : CsvState → Except String CsvState),
        (e.bind f).bind g = e.bind (fun t => (f t).bind g) := by
      intro e f g
      cases e <;> rfl
    calc (csvParse s a).bind (fun t => List.foldlM csvParse t (c :: cs))
        = ((csvParse s a).bind (fun t => csvParse t c)).bind
            (fun u => List.foldlM csvParse u cs) := by
          rw [hassoc]
          rfl
      _ = (csvParse s (a ++ c)).bind (fun u => List.foldlM csvParse u cs) := by
          rw [csvParse_append]
      _ = csvParse s ((a ++ c) ++ cs.flatten) := ih s (a ++ c)
      _ = csvParse s (a ++ (c :: cs).flatten) := by rw [List.flatten_cons, List.append_assoc]

/-- C9: feeding the same bytes split into chunks (in order, aborting at a
failing `feed` as the ingestion pipeline does) followed by `finish` gives
exactly the same emitted events and the same success/error result as one
single `feed` of the concatenation followed by `finish` — for both readers. -/
theorem chunking_invariance :
    (∀ chunks : List (List Nat), runBinReader chunks = runBinReader [chunks.flatten]) ∧
    (∀ chunks : List (List Char), runCsvReader chunks = runCsvReader [chunks.flatten]) := by
  constructor
  · intro chunks
    unfold runBinReader
    rw [binParse_foldl chunks binInit, binParse_foldl [chunks.flatten] binInit]
    simp [binInit]
  · intro chunks
    unfold runCsvReader
    cases chunks with
    | nil =>
      have h0 : csvParse csvInit [] = .ok csvInit := by
        unfold csvParse
        have hn : splitFirstNewline (csvInit.pending ++ []) = none := rfl
        rw [processPending_none hn]
        rfl
      simp only [List.flatten_nil, List.foldlM_cons, List.foldlM_nil, h0]
      rfl
    | cons c cs =>
      have h1 : List.foldlM csvParse csvInit (c :: cs) = csvParse csvInit (c ++ cs.flatten) := by
        rw [List.foldlM_cons]
        exact foldlM_csvParse cs csvInit c
      have h2 : List.foldlM csvParse csvInit [(c :: cs).flatten] =
          csvParse csvInit (c ++ cs.flatten) := by
        simp only [List.foldlM_cons, List.foldlM_nil, List.flatten_cons]
        cases csvParse csvInit (c ++ cs.flatten) <;> rfl
      rw [h1, h2]

theorem sliceBytes_append {buf : List Nat} (t : List Nat) {pos n : Nat}
    (h : pos + n ≤ buf.length) : sliceBytes (buf ++ t) pos n = sliceBytes buf pos n := by
  unfold sliceBytes
  rw [List.drop_append_of_le_length (by omega),
    List.take_append_of_le_length (by simp; omega)]

theorem readFieldBytes_append {buf : List Nat} (t : List Nat) {pos n : Nat}
    {out : List Nat × Nat} (h : readFieldBytes buf pos n = some out) :
    readFieldBytes (buf ++ t) pos n = some out := by
  unfold readFieldBytes at h ⊢
  split at h
  · cases h
  · rename_i hle
    rw [if_neg (by simp; omega), sliceBytes_append t (by omega)]
    exact h

theorem readDigitalV0Header_append {buf : List Nat} (t : List Nat) {pos : Nat}
    {out : Nat × ℚ × ℚ × Nat × Nat} (h : readDigitalV0Header buf pos = some out) :
    readDigitalV0Header (buf ++ t) pos = some out := by
  unfold readDigitalV0Header at h ⊢
  cases h1 : readFieldBytes buf pos 4 with
  | none => rw [h1] at h; cases h
  | some a =>
    rw [h1] at h
    rw [readFieldBytes_append t h1]
    simp only [Option.some_bind] at h ⊢
    cases h2 : readFieldBytes buf a.2 8 with
    | none => rw [h2] at h; cases h
    | some b =>
      rw [h2] at h
      rw [readFieldBytes_append t h2]
      simp only [Option.some_bind] at h ⊢
      cases h3 : readFieldBytes buf b.2 8 with
      | none => rw [h3] at h; cases h
      | some c =>
        rw [h3] at h
        rw [readFieldBytes_append t h3]
        simp only [Option.some_bind] at h ⊢
        cases h4 : readFieldBytes buf c.2 8 with
        | none => rw [h4] at h; cases h
        | some d =>
          rw [h4] at h
          rw [readFieldBytes_append t h4]
          exact h

theorem readDigitalV1Header_append {buf : List Nat} (t : List Nat) {pos : Nat}
    {out : Nat × ℚ × ℚ × ℚ × ℤ × Nat} (h : readDigitalV1Header buf pos = some out) :
    readDigitalV1Header (buf ++ t) pos = some out := by
  unfold readDigitalV1Header at h ⊢
  cases h1 : readFieldBytes buf pos 4 with
  | none => rw [h1] at h; cases h
  | some a =>
    rw [h1] at h
    rw [readFieldBytes_append t h1]
    simp only [Option.some_bind] at h ⊢
    cases h2 : readFieldBytes buf a.2 8 with
    | none => rw [h2] at h; cases h
    | some b =>
      rw [h2] at h
      rw [readFieldBytes_append t h2]
      simp only [Option.some_bind] at h ⊢
      cases h3 : readFieldBytes buf b.2 8 with
      | none => rw [h3] at h; cases h
      | some c =>
        rw [h3] at h
        rw [readFieldBytes_append t h3]
        simp only [Option.some_bind] at h ⊢
        cases h4 : readFieldBytes buf c.2 8 with
        | none => rw [h4] at h; cases h
        | some d =>
          rw [h4] at h
          rw [readFieldBytes_append t h4]
          simp only [Option.some_bind] at h ⊢
          cases h5 : readFieldBytes buf d.2 8 with
          | none => rw [h5] at h; cases h
          | some e =>
            rw [h5] at h
            rw [readFieldBytes_append t h5]
            exact h

theorem readAnalogV1WaveformHeader_append {buf : List Nat} (t : List Nat) {pos : Nat}
    {out : ℚ × ℚ × ℚ × ℤ × Nat × Nat} (h : readAnalogV1WaveformHeader buf pos = some out) :
    readAnalogV1WaveformHeader (buf ++ t) pos = some out := by
  unfold readAnalogV1WaveformHeader at h ⊢
  cases h1 : readFieldBytes buf pos 8 with
  | none => rw [h1] at h; cases h
  | some a =>
    rw [h1] at h
    rw [readFieldBytes_append t h1]
    simp only [Option.some_bind] at h ⊢
    cases h2 : readFieldBytes buf a.2 8 with
    | none => rw [h2] at h; cases h
    | some b =>
      rw [h2] at h
      rw [readFieldBytes_append t h2]
      simp only [Option.some_bind] at h ⊢
      cases h3 : readFieldBytes buf b.2 8 with
      | none => rw [h3] at h; cases h
      | some c =>
        rw [h3] at h
        rw [readFieldBytes_append t h3]
        simp only [Option.some_bind] at h ⊢
        cases h4 : readFieldBytes buf c.2 8 with
        | none => rw [h4] at h; cases h
        | some d =>
          rw [h4] at h
          rw [readFieldBytes_append t h4]
          simp only [Option.some_bind] at h ⊢
          cases h5 : readFieldBytes buf d.2 8 with
          | none => rw [h5] at h; cases h
          | some e =>
            rw [h5] at h
            rw [readFieldBytes_append t h5]
            exact h

theorem readAnalogV0Header_append {buf : List Nat} (t : List Nat) {pos : Nat}
    {out : ℚ × Nat × Nat × Nat × Nat} (h : readAnalogV0Header buf pos = some out) :
    readAnalogV0Header (buf ++ t) pos = some out := by
  unfold readAnalogV0Header at h ⊢
  cases h1 : readFieldBytes buf pos 8 with
  | none => rw [h1] at h; cases h
  | some a =>
    rw [h1] at h
    rw [readFieldBytes_append t h1]
    simp only [Option.some_bind] at h ⊢
    cases h2 : readFieldBytes buf a.2 8 with
    | none => rw [h2] at h; cases h
    | some b =>
      rw [h2] at h
      rw [readFieldBytes_append t h2]
      simp only [Option.some_bind] at h ⊢
      cases h3 : readFieldBytes buf b.2 8 with
      | none => rw [h3] at h; cases h
      | some c =>
        rw [h3] at h
        rw [readFieldBytes_append t h3]
        simp only [Option.some_bind] at h ⊢
        cases h4 : readFieldBytes buf c.2 8 with
        | none => rw [h4] at h; cases h
        | some d =>
          rw [h4] at h
          rw [readFieldBytes_append t h4]
          exact h

theorem consEvent_ok {ev : Counter} {a : BinResult × Nat × List Counter}
    {out : Nat × List Counter} (h : consEvent ev a = (.ok, out)) :
    ∃ p es, a = (.ok, p, es) ∧ out = (p, ev :: es) := by
  obtain ⟨r, p, es⟩ := a
  unfold consEvent at h
  simp at h
  exact ⟨p, es, by rw [h.1], h.2.symm⟩

theorem digitalLoop_append {buf : List Nat} (t : List Nat) {track : TrackKind} :
    ∀ {n pos : Nat} {state : ℤ} {out : Nat × List Counter},
      digitalLoop buf track n pos state = (.ok, out) →
      digitalLoop (buf ++ t) track n pos state = (.ok, out) := by
  intro n
  induction n with
  | zero => intro pos state out h; exact h
  | succ n ih =>
    intro pos state out h
    unfold digitalLoop at h ⊢
    split at h
    · cases h
    · rename_i hle
      rw [if_neg (by simp; omega), sliceBytes_append t (by omega)]
      obtain ⟨p, es, ha, hout⟩ := consEvent_ok h
      rw [ih ha, hout]
      rfl

theorem analogSampleLoop_append {buf : List Nat} (t : List Nat) {track : TrackKind}
    {step : ℚ} :
    ∀ {n pos : Nat} {time : ℚ} {out : Nat × List Counter},
      analogSampleLoop buf track step n pos time = (.ok, out) →
      analogSampleLoop (buf ++ t) track step n pos time = (.ok, out) := by
  intro n
  induction n with
  | zero => intro pos time out h; exact h
  | succ n ih =>
    intro pos time out h
    unfold analogSampleLoop at h ⊢
    split at h
    · cases h
    · rename_i hle
      rw [if_neg (by simp; omega), sliceBytes_append t (by omega)]
      obtain ⟨p, es, ha, hout⟩ := consEvent_ok h
      rw [ih ha, hout]
      rfl

theorem chain_ok {a : BinResult × Nat × List Counter}
    {f : Nat → BinResult × Nat × List Counter} {out : Nat × List Counter}
    (h : chain a f = (.ok, out)) :
    ∃ p1 es1 p2 es2, a = (.ok, p1, es1) ∧ f p1 = (.ok, p2, es2) ∧
      out = (p2, es1 ++ es2) := by
  obtain ⟨r, p1, es1⟩ := a
  unfold chain at h
  by_cases hr : r = BinResult.ok
  · subst hr
    rw [if_pos rfl] at h
    cases hf : f p1 with
    | mk r2 rest2 =>
      obtain ⟨p2, es2⟩ := rest2
      rw [hf] at h
      simp at h
      refine ⟨p1, es1, p2, es2, rfl, ?_, ?_⟩
      · rw [hf, h.1]
      · exact h.2.symm
  · rw [if_neg (by simpa using hr)] at h
    simp at h
    exact absurd h.1 hr

theorem analogWaveformLoop_append {buf : List Nat} (t : List Nat) {track : TrackKind} :
    ∀ {n pos : Nat} {out : Nat × List Counter},
      analogWaveformLoop buf track n pos = (.ok, out) →
      analogWaveformLoop (buf ++ t) track n pos = (.ok, out) := by
  intro n
  induction n with
  | zero => intro pos out h; exact h
  | succ n ih =>
    intro pos out h
    unfold analogWaveformLoop at h ⊢
    cases hh : readAnalogV1WaveformHeader buf pos with
    | none => rw [hh] at h; cases h
    | some hd =>
      rw [hh] at h
      rw [readAnalogV1WaveformHeader_append t hh]
      obtain ⟨beginTime, triggerTime, sampleRate, downsample, numSamples, p⟩ := hd
      simp only at h ⊢
      split at h
      · cases h
      · rw [if_neg (by assumption)]
        split at h
        · cases h
        · rw [if_neg (by assumption)]
          split at h
          · cases h
          · rename_i hguard
            rw [if_neg (by simp; omega)]
            obtain ⟨p1, es1, p2, es2, ha, hf, ho⟩ := chain_ok h
            rw [analogSampleLoop_append t ha, ho]
            unfold chain
            rw [if_pos rfl]
            rw [ih hf]

theorem finishChunk_ok {st : PState} {pre : List Counter} {track : TrackKind}
    {a : BinResult × Nat × List Counter} {st2 : PState}
    (h : finishChunk st pre track a = (.ok, st2)) :
    ∃ p es, a = (.ok, p, es) ∧
      st2 = ⟨p, some track, st.events ++ pre ++ es⟩ := by
  obtain ⟨r, p, es⟩ := a
  unfold finishChunk at h
  rw [Prod.mk.injEq] at h
  exact ⟨p, es, by rw [show r = BinResult.ok from h.1], h.2.symm⟩

theorem parseDigitalChunk_append {buf : List Nat} (t : List Nat) {st st2 : PState}
    (h : parseDigitalChunk buf st = (.ok, st2)) :
    parseDigitalChunk (buf ++ t) st = (.ok, st2) := by
  unfold parseDigitalChunk at h ⊢
  cases hh : readDigitalV1Header buf st.pos with
  | none => rw [hh] at h; cases h
  | some hd =>
    rw [hh] at h
    rw [readDigitalV1Header_append t hh]
    obtain ⟨initialStateRaw, sampleRate, beginTime, endTime, numTransitions, pos⟩ := hd
    simp only at h ⊢
    split at h
    · cases h
    · rw [if_neg (by assumption)]
      split at h
      · cases h
      · rename_i hguard
        rw [if_neg (by simp; omega)]
        obtain ⟨p, es, hl, ho⟩ := finishChunk_ok h
        rw [digitalLoop_append t hl, ho]
        rfl

theorem parseDigitalChunkV0_append {buf : List Nat} (t : List Nat) {st st2 : PState}
    (h : parseDigitalChunkV0 buf st = (.ok, st2)) :
    parseDigitalChunkV0 (buf ++ t) st = (.ok, st2) := by
  unfold parseDigitalChunkV0 at h ⊢
  cases hh : readDigitalV0Header buf st.pos with
  | none => rw [hh] at h; cases h
  | some hd =>
    rw [hh] at h
    rw [readDigitalV0Header_append t hh]
    obtain ⟨initialStateRaw, beginTime, endTime, numTransitions, pos⟩ := hd
    simp only at h ⊢
    split at h
    · cases h
    · rename_i hguard
      rw [if_neg (by simp; omega)]
      obtain ⟨p, es, hl, ho⟩ := finishChunk_ok h
      rw [digitalLoop_append t hl, ho]
      rfl

theorem parseAnalogWaveformV1_append {buf : List Nat} (t : List Nat) {st st2 : PState}
    (h : parseAnalogWaveformV1 buf st = (.ok, st2)) :
    parseAnalogWaveformV1 (buf ++ t) st = (.ok, st2) := by
  unfold parseAnalogWaveformV1 at h ⊢
  cases hh : readFieldBytes buf st.pos 8 with
  | none => rw [hh] at h; cases h
  | some a =>
    rw [hh] at h
    rw [readFieldBytes_append t hh]
    simp only at h ⊢
    obtain ⟨p, es, hl, ho⟩ := finishChunk_ok h
    rw [analogWaveformLoop_append t hl, ho]
    rfl

theorem parseAnalogWaveformV0_append {buf : List Nat} (t : List Nat) {st st2 : PState}
    (h : parseAnalogWaveformV0 buf st = (.ok, st2)) :
    parseAnalogWaveformV0 (buf ++ t) st = (.ok, st2) := by
  unfold parseAnalogWaveformV0 at h ⊢
  cases hh : readAnalogV0Header buf st.pos with
  | none => rw [hh] at h; cases h
  | some hd =>
    rw [hh] at h
    rw [readAnalogV0Header_append t hh]
    obtain ⟨beginTime, sampleRate, downsample, numSamples, p⟩ := hd
    simp only at h ⊢
    split at h
    · cases h
    · rw [if_neg (by assumption)]
      split at h
      · cases h
      · rw [if_neg (by assumption)]
        split at h
        · cases h
        · rename_i hguard
          rw [if_neg (by simp; omega)]
          obtain ⟨p2, es, hl, ho⟩ := finishChunk_ok h
          rw [analogSampleLoop_append t hl, ho]
          rfl

theorem parseVersion0_append {buf : List Nat} (t : List Nat) {dataType : TrackKind}
    {st st2 : PState} (h : parseVersion0 buf dataType st = (.ok, st2)) :
    parseVersion0 (buf ++ t) dataType st = (.ok, st2) := by
  cases dataType with
  | digital => exact parseDigitalChunkV0_append t h
  | analog => exact parseAnalogWaveformV0_append t h

theorem parseVersion1_append {buf : List Nat} (t : List Nat) {dataType : TrackKind}
    {st st2 : PState} (h : parseVersion1 buf dataType st = (.ok, st2)) :
    parseVersion1 (buf ++ t) dataType st = (.ok, st2) := by
  cases dataType with
  | digital => exact parseDigitalChunk_append t h
  | analog => exact parseAnalogWaveformV1_append t h

theorem chunkLoopV1_append {buf : List Nat} (t : List Nat) {dataType : TrackKind} :
    ∀ {n : Nat} {st st2 : PState}, chunkLoopV1 buf dataType n st = (.ok, st2) →
      chunkLoopV1 (buf ++ t) dataType n st = (.ok, st2) := by
  intro n
  induction n with
  | zero => intro st st2 h; exact h
  | succ n ih =>
    intro st st2 h
    unfold chunkLoopV1 at h ⊢
    unfold chainChunk at h ⊢
    cases hp : parseVersion1 buf dataType st with
    | mk r rest =>
      rw [hp] at h
      cases r with
      | ok =>
        rw [parseVersion1_append t hp]
        rw [if_pos rfl] at h ⊢
        exact ih h
      | err m => simp at h
      | oob => simp at h

theorem matchesMagic_append_of_ge {buf : List Nat} (t : List Nat) (h8 : 8 ≤ buf.length) :
    matchesMagic (buf ++ t) = matchesMagic buf := by
  unfold matchesMagic
  rw [sliceBytes_append t (by omega)]
  simp only [List.length_append]
  congr 1
  simp
  omega

theorem parseBuffer_append {b : List Nat} (t : List Nat) {st : PState}
    (h : parseBuffer b = (.ok, st)) : parseBuffer (b ++ t) = (.ok, st) := by
  unfold parseBuffer at h ⊢
  by_cases hm : matchesMagic b
  · rw [if_pos hm] at h
    rw [if_pos (by
      rw [matchesMagic_append_of_ge t ?h8, hm]
      have := (Bool.and_eq_true _ _).mp hm
      exact of_decide_eq_true this.1)]
    cases h1 : readFieldBytes b 8 4 with
    | none => rw [h1] at h; cases h
    | some a =>
      rw [h1] at h
      rw [readFieldBytes_append t h1]
      simp only at h ⊢
      cases h2 : readFieldBytes b a.2 4 with
      | none => rw [h2] at h; cases h
      | some c =>
        rw [h2] at h
        rw [readFieldBytes_append t h2]
        simp only at h ⊢
        split at h
        · cases h
        · rw [if_neg (by assumption)]
          split at h
          · rename_i hv1
            rw [if_pos hv1]
            cases h3 : readFieldBytes b c.2 8 with
            | none => rw [h3] at h; cases h
            | some d =>
              rw [h3] at h
              rw [readFieldBytes_append t h3]
              simp only at h ⊢
              split at h
              · cases h
              · rw [if_neg (by assumption)]
                exact chunkLoopV1_append t h
          · rw [if_neg (by assumption)]
            split at h
            · rename_i hv0
              rw [if_pos hv0]
              exact parseVersion0_append t h
            · cases h
  · rw [if_neg hm] at h
    cases h1 : readFieldBytes b 0 4 with
    | none => rw [h1] at h; cases h
    | some a =>
      rw [h1] at h
      simp only at h
      cases h2 : readFieldBytes b a.2 4 with
      | none => rw [h2] at h; cases h
      | some c =>
        rw [h2] at h
        simp only at h
        cases h3 : readFieldBytes b c.2 4 with
        | none => rw [h3] at h; cases h
        | some d =>
          rw [h3] at h
          simp only at h
          have h8 : 8 ≤ b.length := by
            unfold readFieldBytes at h1 h2
            split at h1
            · cases h1
            · split at h2
              · cases h2
              · rename_i hg1 hg2
                cases h1
                simp at hg2
                omega
          rw [if_neg (by rw [matchesMagic_append_of_ge t h8]; simpa using hm)]
          rw [readFieldBytes_append t h1]
          simp only
          rw [readFieldBytes_append t h2]
          simp only
          rw [readFieldBytes_append t h3]
          simp only
          split at h
          · cases h
          · rw [if_neg (by assumption)]
            split at h
            · cases h
            · rw [if_neg (by assumption)]
              exact parseVersion0_append t h

/-- C10: if `finish` succeeds on a buffer, it succeeds with exactly the same
emitted counter samples on the buffer followed by any trailing bytes: once
the header-dictated number of chunks has been decoded, trailing bytes are
silently ignored, never validated and never reported as an error. -/
theorem binary_trailing_bytes_ignored (b t : List Nat) (st : PState)
    (h : binNotifyEndOfFile ⟨b⟩ = (.ok, st)) : binNotifyEndOfFile ⟨b ++ t⟩ = (.ok, st) := by
  unfold binNotifyEndOfFile at h ⊢
  split at h
  · cases h
  · rename_i hne
    rw [if_neg (by simp at hne ⊢; intro hb; exact absurd (by simp [hb]) hne)]
    exact parseBuffer_append t h

/-- The v1 digital test vector of the reader's unit test: magic, version 1,
digital, one chunk, `initial_state = 0`, times `0.5` and `1.0` over
`begin_time = 0`, `end_time = 2`. -/
def digitalV1SampleInput : List Nat :=
  magicBytes ++ leBytes 1 4 ++ leBytes 0 4 ++ leBytes 1 8 ++
  leBytes 0 4 ++ leBytes 0 8 ++ leBytes 0 8 ++ leBytes 0x4000000000000000 8 ++
  leBytes 2 8 ++ leBytes 0x3FE0000000000000 8 ++ leBytes 0x3FF0000000000000 8

set_option maxRecDepth 100000 in
/-- Witness for C10: the v1 digital sample decodes to three counter samples;
with three junk bytes appended the decode is unchanged. -/
theorem binary_trailing_bytes_ignored_witness :
    binNotifyEndOfFile ⟨digitalV1SampleInput ++ [9, 9, 9]⟩ =
      (.ok, ⟨76, some .digital,
        [⟨0, 0, .digital⟩, ⟨500000000, 1, .digital⟩, ⟨1000000000, 0, .digital⟩]⟩) :=
  binary_trailing_bytes_ignored digitalV1SampleInput [9, 9, 9] _ (by decide)

/-- The value pushed by the digital toggle loop after `j` toggles starting
from `s`: `s` for even `j`, `1 - s` for odd `j`. -/
def altVal (s : ℤ) (j : ℕ) : ℤ := if j % 2 = 0 then s else 1 - s

theorem altVal_succ (s : ℤ) (i : ℕ) : altVal s (i + 1) = 1 - altVal s i := by
  unfold altVal
  by_cases hi : i % 2 = 0
  · rw [if_pos hi, if_neg (by omega)]
  · rw [if_neg hi, if_pos (by omega)]
    ring

theorem altVal_shift (s : ℤ) (i : ℕ) : altVal (1 - s) (i + 1) = altVal s (i + 2) := by
  unfold altVal
  by_cases hi : i % 2 = 0
  · rw [if_neg (by omega), if_pos (by omega)]
    ring
  · rw [if_pos (by omega), if_neg (by omega)]

theorem digitalLoop_ok_spec {buf : List Nat} {track : TrackKind} :
    ∀ {n pos : Nat} {state : ℤ} {out : Nat × List Counter},
      digitalLoop buf track n pos state = (.ok, out) →
      out.1 = pos + 8 * n ∧ out.2.length = n ∧
      ∀ i, i < n → out.2[i]? =
        some ⟨SecondsToNs (decodeF64 (sliceBytes buf (pos + 8 * i) 8)),
              ((altVal state (i + 1) : ℤ) : ℚ), track⟩ := by
  intro n
  induction n with
  | zero =>
    intro pos state out h
    unfold digitalLoop at h
    rw [Prod.mk.injEq] at h
    rw [← h.2]
    refine ⟨by simp, by simp, ?_⟩
    intro i hi
    omega
  | succ n ih =>
    intro pos state out h
    unfold digitalLoop at h
    split at h
    · cases h
    · obtain ⟨p, es, hl, ho⟩ := consEvent_ok h
      obtain ⟨hp, hlen, hidx⟩ := ih hl
      simp only at hp hlen hidx
      subst ho
      refine ⟨by simp [hp]; ring, by simp [hlen], ?_⟩
      intro i hi
      cases i with
      | zero =>
        simp [altVal]
      | succ j =>
        simp only [List.getElem?_cons_succ]
        rw [hidx j (by omega)]
        rw [show pos + 8 + 8 * j = pos + 8 * (j + 1) by ring, altVal_shift]

theorem altVal_zeroOne (init i : ℕ) :
    altVal (if init ≠ 0 then 1 else 0) i = 0 ∨ altVal (if init ≠ 0 then 1 else 0) i = 1 := by
  unfold altVal
  by_cases h1 : i % 2 = 0 <;> by_cases h2 : init ≠ 0 <;> simp [h1, h2]

theorem digital_emission_common {buf : List Nat} {st st2 : PState} {init : Nat}
    {beginT : ℚ} {k pos p : Nat} {es0 : List Counter}
    (hp : p = pos + 8 * k) (hlen : es0.length = k)
    (hidx : ∀ i, i < k → es0[i]? = some
      ⟨SecondsToNs (decodeF64 (sliceBytes buf (pos + 8 * i) 8)),
       ((altVal (if init ≠ 0 then 1 else 0) (i + 1) : ℤ) : ℚ), st.trackId.getD .digital⟩)
    (ho : st2 = ⟨p, some (st.trackId.getD .digital),
      st.events ++ [⟨SecondsToNs beginT, ((if init ≠ 0 then 1 else 0 : ℤ) : ℚ),
        st.trackId.getD .digital⟩] ++ es0⟩) :
    ∃ es, st2.events = st.events ++ es ∧ es.length = k + 1 ∧
      (∀ i, i < k + 1 → es[i]? = some
        ⟨(if i = 0 then SecondsToNs beginT
          else SecondsToNs (decodeF64 (sliceBytes buf (pos + 8 * (i - 1)) 8))),
         ((altVal (if init ≠ 0 then 1 else 0) i : ℤ) : ℚ), st.trackId.getD .digital⟩) ∧
      (∀ (i : ℕ) (e e2 : Counter), es[i]? = some e → es[i + 1]? = some e2 →
        e2.value = 1 - e.value) ∧
      (∀ (i : ℕ) (e : Counter), es[i]? = some e → e.value = 0 ∨ e.value = 1) := by
  subst ho
  refine ⟨⟨SecondsToNs beginT, ((if init ≠ 0 then 1 else 0 : ℤ) : ℚ),
    st.trackId.getD .digital⟩ :: es0, by simp, by simp [hlen], ?_, ?_, ?_⟩
  · intro i hi
    cases i with
    | zero =>
      simp [altVal]
    | succ j =>
      simp only [List.getElem?_cons_succ]
      rw [hidx j (by omega)]
      simp
  · have hval : ∀ i e,
        (⟨SecondsToNs beginT, ((if init ≠ 0 then 1 else 0 : ℤ) : ℚ),
          st.trackId.getD .digital⟩ :: es0)[i]? = some e →
        e.value = ((altVal (if init ≠ 0 then 1 else 0) i : ℤ) : ℚ) := by
      intro i e he
      cases i with
      | zero =>
        simp only [List.getElem?_cons_zero, Option.some.injEq] at he
        rw [← he]
        simp [altVal]
      | succ j =>
        simp only [List.getElem?_cons_succ] at he
        have hj : j < k := by
          obtain ⟨hjl, _⟩ := List.getElem?_eq_some_iff.mp he
          omega
        rw [hidx j hj] at he
        cases he
        rfl
    intro i e e2 h1 h2
    rw [hval i e h1, hval (i + 1) e2 h2, altVal_succ]
    push_cast
    ring
  · intro i e he
    have hval : e.value = ((altVal (if init ≠ 0 then 1 else 0) i : ℤ) : ℚ) := by
      cases i with
      | zero =>
        simp only [List.getElem?_cons_zero, Option.some.injEq] at he
        rw [← he]
        simp [altVal]
      | succ j =>
        simp only [List.getElem?_cons_succ] at he
        have hj : j < k := by
          obtain ⟨hjl, _⟩ := List.getElem?_eq_some_iff.mp he
          omega
        rw [hidx j hj] at he
        cases he
        rfl
    rw [hval]
    rcases altVal_zeroOne init i with h0 | h1
    · left
      rw [h0]
      norm_num
    · right
      rw [h1]
      norm_num

/-- C1: a successfully decoded digital chunk (v0 — both the legacy and the
magic-v0 layout go through this decoder — and v1) with `k` declared
transitions emits exactly `k + 1` counter samples on the digital track: the
first is `(ns(begin_time), initial_state != 0 ? 1 : 0)`, the `i`-th next is
`(ns(t_i), state toggled i+1 times)`, so consecutive values satisfy
`v_{i+1} = 1 - v_i` and every value is `0` or `1`. -/
theorem digital_chunk_alternating_emission :
    (∀ buf st st2, parseDigitalChunkV0 buf st = (.ok, st2) →
      ∃ init beginT endT k pos,
        readDigitalV0Header buf st.pos = some (init, beginT, endT, k, pos) ∧
        ∃ es, st2.events = st.events ++ es ∧ es.length = k + 1 ∧
          (∀ i, i < k + 1 → es[i]? =
            some ⟨(if i = 0 then SecondsToNs beginT
                   else SecondsToNs (decodeF64 (sliceBytes buf (pos + 8 * (i - 1)) 8))),
                  ((altVal (if init ≠ 0 then 1 else 0) i : ℤ) : ℚ),
                  st.trackId.getD .digital⟩) ∧
          (∀ (i : ℕ) (e e2 : Counter), es[i]? = some e → es[i + 1]? = some e2 →
            e2.value = 1 - e.value) ∧
          (∀ (i : ℕ) (e : Counter), es[i]? = some e → e.value = 0 ∨ e.value = 1)) ∧
    (∀ buf st st2, parseDigitalChunk buf st = (.ok, st2) →
      ∃ init sampleRate beginT endT nt pos,
        readDigitalV1Header buf st.pos = some (init, sampleRate, beginT, endT, nt, pos) ∧
        ∃ es, st2.events = st.events ++ es ∧ es.length = nt.toNat + 1 ∧
          (∀ i, i < nt.toNat + 1 → es[i]? =
            some ⟨(if i = 0 then SecondsToNs beginT
                   else SecondsToNs (decodeF64 (sliceBytes buf (pos + 8 * (i - 1)) 8))),
                  ((altVal (if init ≠ 0 then 1 else 0) i : ℤ) : ℚ),
                  st.trackId.getD .digital⟩) ∧
          (∀ (i : ℕ) (e e2 : Counter), es[i]? = some e → es[i + 1]? = some e2 →
            e2.value = 1 - e.value) ∧
          (∀ (i : ℕ) (e : Counter), es[i]? = some e → e.value = 0 ∨ e.value = 1)) := by
  constructor
  · intro buf st st2 h
    unfold parseDigitalChunkV0 at h
    cases hh : readDigitalV0Header buf st.pos with
    | none => rw [hh] at h; cases h
    | some hd =>
      rw [hh] at h
      obtain ⟨init, beginT, endT, k, pos⟩ := hd
      simp only at h
      split at h
      · cases h
      · obtain ⟨p, es0, hl, ho⟩ := finishChunk_ok h
        obtain ⟨hp, hlen, hidx⟩ := digitalLoop_ok_spec hl
        simp only at hp hlen hidx
        refine ⟨init, beginT, endT, k, pos, rfl, ?_⟩
        exact digital_emission_common hp hlen hidx ho
  · intro buf st st2 h
    unfold parseDigitalChunk at h
    cases hh : readDigitalV1Header buf st.pos with
    | none => rw [hh] at h; cases h
    | some hd =>
      rw [hh] at h
      obtain ⟨init, sampleRate, beginT, endT, nt, pos⟩ := hd
      simp only at h
      split at h
      · cases h
      · split at h
        · cases h
        · obtain ⟨p, es0, hl, ho⟩ := finishChunk_ok h
          obtain ⟨hp, hlen, hidx⟩ := digitalLoop_ok_spec hl
          simp only at hp hlen hidx
          refine ⟨init, sampleRate, beginT, endT, nt, pos, rfl, ?_⟩
          exact digital_emission_common hp hlen hidx ho

/-- A standalone v0 digital chunk: `initial_state = 0`, `begin_time = 0`,
`end_time = 2`, two transitions at `0.5` and `1.0`. -/
def digitalV0SampleChunk : List Nat :=
  leBytes 0 4 ++ leBytes 0 8 ++ leBytes 0x4000000000000000 8 ++
  leBytes 2 8 ++ leBytes 0x3FE0000000000000 8 ++ leBytes 0x3FF0000000000000 8

/-- The decode state after `digitalV0SampleChunk`. -/
def digitalV0SampleResult : PState :=
  ⟨44, some .digital,
   [⟨0, 0, .digital⟩, ⟨500000000, 1, .digital⟩, ⟨1000000000, 0, .digital⟩]⟩

set_option maxRecDepth 100000 in
/-- Witness for C1: the sample chunk decodes to three alternating samples. -/
theorem digital_chunk_alternating_emission_witness :
    parseDigitalChunkV0 digitalV0SampleChunk ⟨0, none, []⟩ =
      (.ok, digitalV0SampleResult) ∧
    (∃ init beginT endT k pos,
      readDigitalV0Header digitalV0SampleChunk 0 = some (init, beginT, endT, k, pos) ∧
      ∃ es, digitalV0SampleResult.events = [] ++ es ∧ es.length = k + 1 ∧
        (∀ i, i < k + 1 → es[i]? = some
          ⟨(if i = 0 then SecondsToNs beginT
            else SecondsToNs
              (decodeF64 (sliceBytes digitalV0SampleChunk (pos + 8 * (i - 1)) 8))),
           ((altVal (if init ≠ 0 then 1 else 0) i : ℤ) : ℚ), TrackKind.digital⟩) ∧
        (∀ (i : ℕ) (e e2 : Counter), es[i]? = some e → es[i + 1]? = some e2 →
          e2.value = 1 - e.value) ∧
        (∀ (i : ℕ) (e : Counter), es[i]? = some e → e.value = 0 ∨ e.value = 1)) :=
  ⟨by decide,
   digital_chunk_alternating_emission.1 digitalV0SampleChunk ⟨0, none, []⟩
     digitalV0SampleResult (by decide)⟩

theorem updMap_self {α : Type} (f : String → α) (a : String) : updMap f a (f a) = f := by
  funext b
  unfold updMap
  split <;> simp_all

theorem updMap_same {α : Type} (f : String → α) (a : String) (v : α) :
    updMap f a v a = v := by
  unfold updMap
  simp

theorem updMap_ne {α : Type} (f : String → α) (a b : String) (v : α) (h : b ≠ a) :
    updMap f a v b = f b := by
  unfold updMap
  simp [h]

theorem rowTrackLookup_slices (core : CsvCore) (a : String) :
    (rowTrackLookup core a).2.slices = core.slices := by
  unfold rowTrackLookup
  split <;> rfl

theorem rowTrackLookup_tstates (core : CsvCore) (a : String) :
    (rowTrackLookup core a).2.tstates = core.tstates := by
  unfold rowTrackLookup
  split <;> rfl

theorem parseRow_eq (core : CsvCore) (line : String) {sSec dSec : ℚ}
    (hne : (parseCsvLine line).isEmpty = false)
    (hss : rowStartStr core line ≠ "")
    (hsd : stringToDouble (rowStartStr core line) = some sSec)
    (hdd : rowDurOpt core line = some dSec) :
    parseRow core line = .ok (rowResult core line sSec dSec) := by
  unfold parseRow
  rw [if_neg (by simp [hne]), if_neg hss, hsd, hdd]

/-- Result of `i2cStep` when it neither mutates the state nor synthesizes a
slice: `rowResult` leaves every transaction state unchanged and appends
exactly the raw slice. -/
theorem rowResult_of_i2cStep_id (core : CsvCore) (line : String) (sSec dSec : ℚ)
    (hstep : asciiLower (rowAnalyzer core line) = "i2c" →
      i2cStep core (rowFields core line) (asciiLower (rowType core line))
        (csvSecondsToNs sSec) (csvSecondsToNs dSec)
        (rowTrackLookup core (rowAnalyzer core line)).1
        (core.tstates (rowAnalyzer core line)) =
      (core.tstates (rowAnalyzer core line), [])) :
    (rowResult core line sSec dSec).tstates = core.tstates ∧
    (rowResult core line sSec dSec).slices =
      core.slices ++ [rawSlice core line sSec dSec] := by
  unfold rowResult
  by_cases hi2c : asciiLower (rowAnalyzer core line) = "i2c"
  · rw [if_pos hi2c, hstep hi2c]
    constructor
    · simp [rowTrackLookup_tstates, updMap_self]
    · simp [rowTrackLookup_slices]
  · rw [if_neg hi2c]
    exact ⟨by simp [rowTrackLookup_tstates], by simp [rowTrackLookup_slices]⟩

/-- A concrete CSV schema/state for evaluating the row-level theorems: the
four structural columns, and an open i2c transaction with one write byte
recorded under the key `"i2c"`. -/
def sampleCsvCore : CsvCore :=
  { headerParsed := true,
    columns := ["name", "type", "start_time", "duration"],
    nameCol := some 0, typeCol := some 1, startTimeCol := some 2,
    durationCol := some 3,
    tstates := fun a =>
      if a = "i2c" then
        { opened := true, start_ts_ns := 100, address := "0x20", read := false,
          write_bytes := ["0x01"], read_bytes := [] }
      else {} }

/-- C6: at most one transaction is open per analyzer, and the two no-op
policies hold: a `start` row on an already-open transaction leaves every
transaction state unchanged (no reset of `start_ts_ns`, `address`, `read` or
the byte lists), and a `stop` row with no open transaction emits no
synthesized slice, changes no transaction state, and does not error — in
both cases the row still emits exactly its raw slice. -/
theorem i2c_start_while_open_and_stop_while_closed_are_noops :
    (∀ (core : CsvCore) (line : String) (sSec dSec : ℚ),
      (parseCsvLine line).isEmpty = false →
      rowStartStr core line ≠ "" →
      stringToDouble (rowStartStr core line) = some sSec →
      rowDurOpt core line = some dSec →
      asciiLower (rowType core line) = "start" →
      (core.tstates (rowAnalyzer core line)).opened = true →
      parseRow core line = .ok (rowResult core line sSec dSec) ∧
      (rowResult core line sSec dSec).tstates = core.tstates ∧
      (rowResult core line sSec dSec).slices =
        core.slices ++ [rawSlice core line sSec dSec]) ∧
    (∀ (core : CsvCore) (line : String) (sSec dSec : ℚ),
      (parseCsvLine line).isEmpty = false →
      rowStartStr core line ≠ "" →
      stringToDouble (rowStartStr core line) = some sSec →
      rowDurOpt core line = some dSec →
      asciiLower (rowType core line) = "stop" →
      (core.tstates (rowAnalyzer core line)).opened = false →
      parseRow core line = .ok (rowResult core line sSec dSec) ∧
      (rowResult core line sSec dSec).tstates = core.tstates ∧
      (rowResult core line sSec dSec).slices =
        core.slices ++ [rawSlice core line sSec dSec]) := by
  constructor
  · intro core line sSec dSec hne hss hsd hdd ht hopen
    have h := rowResult_of_i2cStep_id core line sSec dSec
      (fun _ => by simp [i2cStep, ht, hopen])
    exact ⟨parseRow_eq core line hne hss hsd hdd, h.1, h.2⟩
  · intro core line sSec dSec hne hss hsd hdd ht hclosed
    have h := rowResult_of_i2cStep_id core line sSec dSec
      (fun _ => by simp [i2cStep, ht, hclosed])
    exact ⟨parseRow_eq core line hne hss hsd hdd, h.1, h.2⟩

set_option maxRecDepth 200000 in
/-- C6 witness: on the concrete schema, a `start` row for the open `"i2c"`
state and a `stop` row for the closed `"I2C"` state are both no-ops. -/
theorem i2c_start_while_open_and_stop_while_closed_are_noops_witness :
    ((sampleCsvCore.tstates (rowAnalyzer sampleCsvCore "i2c,start,2,0")).opened
        = true ∧
      parseRow sampleCsvCore "i2c,start,2,0" =
        .ok (rowResult sampleCsvCore "i2c,start,2,0" 2 0) ∧
      (rowResult sampleCsvCore "i2c,start,2,0" 2 0).tstates =
        sampleCsvCore.tstates ∧
      (rowResult sampleCsvCore "i2c,start,2,0" 2 0).slices =
        sampleCsvCore.slices ++ [rawSlice sampleCsvCore "i2c,start,2,0" 2 0]) ∧
    ((sampleCsvCore.tstates (rowAnalyzer sampleCsvCore "I2C,stop,3,0")).opened
        = false ∧
      parseRow sampleCsvCore "I2C,stop,3,0" =
        .ok (rowResult sampleCsvCore "I2C,stop,3,0" 3 0) ∧
      (rowResult sampleCsvCore "I2C,stop,3,0" 3 0).tstates =
        sampleCsvCore.tstates ∧
      (rowResult sampleCsvCore "I2C,stop,3,0" 3 0).slices =
        sampleCsvCore.slices ++ [rawSlice sampleCsvCore "I2C,stop,3,0" 3 0]) := by
  have h1 := i2c_start_while_open_and_stop_while_closed_are_noops.1
    sampleCsvCore "i2c,start,2,0" 2 0 (by decide) (by decide) (by decide)
    (by decide) (by decide) (by decide)
  have h2 := i2c_start_while_open_and_stop_while_closed_are_noops.2
    sampleCsvCore "I2C,stop,3,0" 3 0 (by decide) (by decide) (by decide)
    (by decide) (by decide) (by decide)
  exact ⟨⟨by decide, h1.1, h1.2.1, h1.2.2⟩, ⟨by decide, h2.1, h2.2.1, h2.2.2⟩⟩

/-- C3: a `stop` row on an i2c analyzer with an open transaction parses
without error and emits, after the row's raw slice and on the same track,
exactly one synthesized transaction slice: start `state.start_ts_ns`,
duration `max 0 ((ts + dur) - state.start_ts_ns)`, category `"i2c"`, name
`buildTransactionName state`, arguments `transactionArgs state` (address,
space-joined write bytes, space-joined read bytes, each when non-empty);
afterwards the analyzer's state is the old one closed. -/
theorem i2c_stop_emits_transaction_slice
    (core : CsvCore) (line : String) (sSec dSec : ℚ)
    (hne : (parseCsvLine line).isEmpty = false)
    (hss : rowStartStr core line ≠ "")
    (hsd : stringToDouble (rowStartStr core line) = some sSec)
    (hdd : rowDurOpt core line = some dSec)
    (ha : asciiLower (rowAnalyzer core line) = "i2c")
    (ht : asciiLower (rowType core line) = "stop")
    (hopen : (core.tstates (rowAnalyzer core line)).opened = true) :
    parseRow core line = .ok (rowResult core line sSec dSec) ∧
    (rowResult core line sSec dSec).slices =
      core.slices ++ [rawSlice core line sSec dSec,
        ⟨(core.tstates (rowAnalyzer core line)).start_ts_ns,
         (rowTrackLookup core (rowAnalyzer core line)).1,
         some "i2c",
         buildTransactionName (core.tstates (rowAnalyzer core line)),
         max 0 (csvSecondsToNs sSec + csvSecondsToNs dSec -
           (core.tstates (rowAnalyzer core line)).start_ts_ns),
         transactionArgs (core.tstates (rowAnalyzer core line))⟩] ∧
    (rowResult core line sSec dSec).tstates =
      updMap core.tstates (rowAnalyzer core line)
        { core.tstates (rowAnalyzer core line) with opened := false } ∧
    ((rowResult core line sSec dSec).tstates (rowAnalyzer core line)).opened
      = false := by
  have hstep : i2cStep core (rowFields core line)
      (asciiLower (rowType core line)) (csvSecondsToNs sSec)
      (csvSecondsToNs dSec) (rowTrackLookup core (rowAnalyzer core line)).1
      (core.tstates (rowAnalyzer core line)) =
      ({ core.tstates (rowAnalyzer core line) with opened := false },
       [⟨(core.tstates (rowAnalyzer core line)).start_ts_ns,
         (rowTrackLookup core (rowAnalyzer core line)).1, some "i2c",
         buildTransactionName (core.tstates (rowAnalyzer core line)),
         (if csvSecondsToNs sSec + csvSecondsToNs dSec -
             (core.tstates (rowAnalyzer core line)).start_ts_ns < 0 then 0
          else csvSecondsToNs sSec + csvSecondsToNs dSec -
             (core.tstates (rowAnalyzer core line)).start_ts_ns),
         transactionArgs (core.tstates (rowAnalyzer core line))⟩]) := by
    simp [i2cStep, ht, hopen]
  have hres : rowResult core line sSec dSec =
      { (rowTrackLookup core (rowAnalyzer core line)).2 with
        slices := (rowTrackLookup core (rowAnalyzer core line)).2.slices ++
          [rawSlice core line sSec dSec] ++
          [⟨(core.tstates (rowAnalyzer core line)).start_ts_ns,
            (rowTrackLookup core (rowAnalyzer core line)).1, some "i2c",
            buildTransactionName (core.tstates (rowAnalyzer core line)),
            (if csvSecondsToNs sSec + csvSecondsToNs dSec -
                (core.tstates (rowAnalyzer core line)).start_ts_ns < 0 then 0
             else csvSecondsToNs sSec + csvSecondsToNs dSec -
                (core.tstates (rowAnalyzer core line)).start_ts_ns),
            transactionArgs (core.tstates (rowAnalyzer core line))⟩],
        tstates := updMap core.tstates (rowAnalyzer core line)
          { core.tstates (rowAnalyzer core line) with opened := false } } := by
    unfold rowResult
    rw [if_pos ha, hstep]
  have hdur : (if csvSecondsToNs sSec + csvSecondsToNs dSec -
        (core.tstates (rowAnalyzer core line)).start_ts_ns < 0 then (0 : ℤ)
      else csvSecondsToNs sSec + csvSecondsToNs dSec -
        (core.tstates (rowAnalyzer core line)).start_ts_ns) =
      max 0 (csvSecondsToNs sSec + csvSecondsToNs dSec -
        (core.tstates (rowAnalyzer core line)).start_ts_ns) := by
    omega
  refine ⟨parseRow_eq core line hne hss hsd hdd, ?_, ?_, ?_⟩
  · rw [hres, hdur]
    simp [rowTrackLookup_slices]
  · rw [hres]
  · rw [hres]
    exact congrArg TransactionState.opened (updMap_same _ _ _)

set_option maxRecDepth 400000 in
/-- C3 witness: on the concrete schema, the row `"i2c,stop,1,0"` closes the
open transaction and emits the synthesized transaction slice after the raw
slice. -/
theorem i2c_stop_emits_transaction_slice_witness :
    (parseCsvLine "i2c,stop,1,0").isEmpty = false ∧
    rowStartStr sampleCsvCore "i2c,stop,1,0" ≠ "" ∧
    stringToDouble (rowStartStr sampleCsvCore "i2c,stop,1,0") = some 1 ∧
    rowDurOpt sampleCsvCore "i2c,stop,1,0" = some 0 ∧
    asciiLower (rowAnalyzer sampleCsvCore "i2c,stop,1,0") = "i2c" ∧
    asciiLower (rowType sampleCsvCore "i2c,stop,1,0") = "stop" ∧
    (sampleCsvCore.tstates (rowAnalyzer sampleCsvCore "i2c,stop,1,0")).opened
      = true ∧
    (parseRow sampleCsvCore "i2c,stop,1,0" =
        .ok (rowResult sampleCsvCore "i2c,stop,1,0" 1 0) ∧
      (rowResult sampleCsvCore "i2c,stop,1,0" 1 0).slices =
        sampleCsvCore.slices ++ [rawSlice sampleCsvCore "i2c,stop,1,0" 1 0,
          ⟨(sampleCsvCore.tstates
              (rowAnalyzer sampleCsvCore "i2c,stop,1,0")).start_ts_ns,
           (rowTrackLookup sampleCsvCore
              (rowAnalyzer sampleCsvCore "i2c,stop,1,0")).1,
           some "i2c",
           buildTransactionName (sampleCsvCore.tstates
              (rowAnalyzer sampleCsvCore "i2c,stop,1,0")),
           max 0 (csvSecondsToNs 1 + csvSecondsToNs 0 -
             (sampleCsvCore.tstates
                (rowAnalyzer sampleCsvCore "i2c,stop,1,0")).start_ts_ns),
           transactionArgs (sampleCsvCore.tstates
              (rowAnalyzer sampleCsvCore "i2c,stop,1,0"))⟩] ∧
      (rowResult sampleCsvCore "i2c,stop,1,0" 1 0).tstates =
        updMap sampleCsvCore.tstates (rowAnalyzer sampleCsvCore "i2c,stop,1,0")
          { sampleCsvCore.tstates (rowAnalyzer sampleCsvCore "i2c,stop,1,0")
              with opened := false } ∧
      ((rowResult sampleCsvCore "i2c,stop,1,0" 1 0).tstates
          (rowAnalyzer sampleCsvCore "i2c,stop,1,0")).opened = false) :=
  ⟨by decide, by decide, by decide, by decide, by decide, by decide, by decide,
   i2c_stop_emits_transaction_slice sampleCsvCore "i2c,stop,1,0" 1 0
     (by decide) (by decide) (by decide) (by decide) (by decide) (by decide)
     (by decide)⟩

/-- C5 (amended): the lower-cased analyzer name is used only as the I2C
detection key; the transaction-state map is read and written at the
original-case analyzer name.  Every key other than the row's original-case
analyzer — in particular a case-variant of it — is untouched, and a row
whose lower-cased analyzer is not `"i2c"` touches no transaction state at
all. -/
theorem transaction_state_key_is_original_case_analyzer :
    (∀ (core : CsvCore) (line : String) (sSec dSec : ℚ) (b : String),
      b ≠ rowAnalyzer core line →
      (rowResult core line sSec dSec).tstates b = core.tstates b) ∧
    (∀ (core : CsvCore) (line : String) (sSec dSec : ℚ),
      asciiLower (rowAnalyzer core line) ≠ "i2c" →
      (rowResult core line sSec dSec).tstates = core.tstates) := by
  constructor
  · intro core line sSec dSec b hb
    unfold rowResult
    by_cases hi : asciiLower (rowAnalyzer core line) = "i2c"
    · rw [if_pos hi]
      exact updMap_ne _ _ _ _ hb
    · rw [if_neg hi]
      show (rowTrackLookup core (rowAnalyzer core line)).2.tstates b = _
      rw [rowTrackLookup_tstates]
  · intro core line sSec dSec hi
    unfold rowResult
    rw [if_neg hi]
    exact rowTrackLookup_tstates _ _

set_option maxRecDepth 1000000 in
/-- C5 (counterexample): with rows `I2C,start` then `i2c,stop`, the start
opens a transaction under the key `"I2C"`, the stop finds the key `"i2c"`
closed and is a no-op, and only the two raw slices are emitted — the two
case-variant spellings do not share one `TransactionState` as the claim
asserts. -/
theorem case_differing_analyzers_use_distinct_states :
    (runCsvReader
        [("name,type,start_time,duration\nI2C,start,0,0\ni2c,stop,1,0\n").toList]).toOption.map
      (fun s => ((s.core.tstates "I2C").opened, (s.core.tstates "i2c").opened,
        s.core.slices.length)) = some (true, false, 2) := by
  decide

/-- C7 (amended): for every parsed row, the emitted slice's display name is
the trimmed `data` field whenever a data column exists, that field is
non-empty and its value differs from the `type` value; otherwise the trimmed
`address` field whenever an address column exists and that field is
non-empty; otherwise the `type` value.  In particular a non-empty data value
equal to the type string is overridden by a non-empty address, and the
address is also the fallback when data is absent or empty. -/
theorem slice_name_data_preferred_unless_equal_to_type
    (core : CsvCore) (line : String) :
    rowEventName core line =
      if core.dataCol.isSome = true ∧
          trimWS (getField (rowFields core line) (core.dataCol.getD 0)) ≠ "" ∧
          trimWS (getField (rowFields core line) (core.dataCol.getD 0)) ≠
            rowType core line then
        trimWS (getField (rowFields core line) (core.dataCol.getD 0))
      else if core.addressCol.isSome = true ∧
          trimWS (getField (rowFields core line) (core.addressCol.getD 0)) ≠ ""
        then
        trimWS (getField (rowFields core line) (core.addressCol.getD 0))
      else rowType core line := by
  simp only [rowEventName]
  by_cases hd : core.dataCol.isSome = true <;>
    by_cases h1 :
      trimWS (getField (rowFields core line) (core.dataCol.getD 0)) = "" <;>
    by_cases h2 :
      trimWS (getField (rowFields core line) (core.dataCol.getD 0)) =
        rowType core line <;>
    by_cases had : core.addressCol.isSome = true <;>
    by_cases h3 :
      trimWS (getField (rowFields core line) (core.addressCol.getD 0)) = "" <;>
    simp [hd, h1, h2, had, h3]

set_option maxRecDepth 1000000 in
/-- C7 (counterexample): with a non-empty `data` value equal to the `type`
value and a non-empty `address`, the emitted slice is named after the
address, not the data value — the data field is not preferred
unconditionally as the claim asserts. -/
theorem data_equal_to_type_yields_address_name :
    (runCsvReader
        [("name,type,start_time,duration,data,address\nA,x,0,0,x,addr\n").toList]).toOption.map
      (fun s => s.core.slices.map Slice.name) = some ["addr"] := by
  decide

set_option maxRecDepth 10000 in
/-- C2 (failing input): on `overflowDigitalV0Input` the declared transition
count (`2 ^ 61`) times the element size exceeds the remaining bytes (none
remain of the 40-byte buffer), yet the decode does not fail with the
truncation error: the multiplication overflows `size_t` (the guard compares
`40` against the buffer length `40`) and the transition loop reads out of
bounds (`oob`), after pushing the initial counter sample. -/
theorem digitalV0_count_overflow_reads_out_of_bounds :
    binNotifyEndOfFile ⟨overflowDigitalV0Input⟩ =
      (.oob, ⟨40, some .digital, [⟨0, 0, .digital⟩]⟩) ∧
    (binNotifyEndOfFile ⟨overflowDigitalV0Input⟩).1 ≠
      .err "Saleae digital v0 transitions truncated" ∧
    overflowDigitalV0Input.length = 40 ∧
    w64 (40 + w64 (2 ^ 61 * 8)) = 40 := by
  refine ⟨?_, ?_, ?_, ?_⟩ <;> decide

end Viewtrace
